import Mathlib

/-!
Verification of the esdown/es6now translator core: a shallow embedding of the
line-preservation utilities, the default AST rendering, the module wrapper,
the scanner error paths, the parser precedence loop, and the desugaring
handlers of the replacer, together with theorems checking the repository's
specification claims against them.

Source text is modelled as `List Char` (a JS string is a sequence of code
units; all inputs of interest here are code-point sequences).
-/

set_option maxHeartbeats 1000000

namespace Esdown

/-- Unicode line separator U+2028, a scanner line terminator. -/
def lsChar : Char := Char.ofNat 0x2028

/-- Unicode paragraph separator U+2029, a scanner line terminator. -/
def psChar : Char := Char.ofNat 0x2029

/-- `countNewlines` from `src/src/Replacer.js` lines 24-28:
`text.match(/\r\n?|\n/g)` scans left to right and counts each `\r\n` pair
once, each lone `\r` once and each lone `\n` once. -/
def countNewlines : List Char → Nat
  | [] => 0
  | c :: rest =>
    if c = '\r' then
      match rest with
      | '\n' :: rest2 => countNewlines rest2 + 1
      | r => countNewlines r + 1
    else if c = '\n' then countNewlines rest + 1
    else countNewlines rest

/-- `preserveNewlines` from `src/src/Replacer.js` lines 30-38: when
`height > 0` and the text has fewer newlines than `height`, append
`height - n` line feeds; otherwise return the text unchanged. -/
def preserveNewlines (text : List Char) (height : Int) : List Char :=
  let n := countNewlines text
  if 0 < height ∧ (n : Int) < height then
    text ++ List.replicate (height - n).toNat '\n'
  else
    text

/-- A character list that does not end with a carriage return. -/
def noTrailingCR (l : List Char) : Bool :=
  match l.getLast? with
  | some c => c ≠ '\r'
  | none => true

/-- A character list containing no carriage return. -/
def crFree (l : List Char) : Bool := l.all (fun c => c ≠ '\r')

/-- A character list containing neither U+2028 nor U+2029. -/
def lsFree (l : List Char) : Bool := l.all (fun c => c ≠ lsChar ∧ c ≠ psChar)

/-- `input.slice(a, b)` on a JS string: the characters of the half-open
range `[a, b)`; empty when `b <= a`. -/
def slice (input : List Char) (a b : Nat) : List Char :=
  (input.drop a).take (b - a)

/-- The loop body of `Replacer.stringify` (`src/src/Replacer.js` lines
987-1007): walk the children in order; for each child emit the source text
between the running offset and the child's start, then the child's rewritten
text, and move the offset to the child's end; finally emit the source tail up
to the node's end.  A child is modelled as `(start, end, text)`. -/
def stringifyFrom (input : List Char) (e : Nat) :
    Nat → List (Nat × Nat × List Char) → List Char
  | offset, [] => if offset < e then slice input offset e else []
  | offset, (cs, ce, t) :: rest =>
    (if offset < cs then slice input offset cs else []) ++ t ++
      stringifyFrom input e ce rest

/-- `Replacer.stringify` for a node spanning `[s, e)` with the given
(rewritten) children. -/
def stringify (input : List Char) (s e : Nat)
    (kids : List (Nat × Nat × List Char)) : List Char :=
  stringifyFrom input e s kids

/-- The parser invariant on child spans used by `stringify`: children are
ordered, non-overlapping and contained in `[o, e)`. -/
def spanChain : Nat → List (Nat × Nat × List Char) → Nat → Bool
  | o, [], e => decide (o ≤ e)
  | o, (cs, ce, _) :: rest, e =>
    decide (o ≤ cs) && decide (cs ≤ ce) && spanChain ce rest e

/-- The word list of the `RESERVED_WORD` regex in `src/src/Replacer.js`
lines 16-22 (an anchored alternation, i.e. an exact-match test). -/
def RESERVED_WORDS : List String :=
  ["break", "case", "catch", "class", "const", "continue", "debugger",
   "default", "delete", "do", "else", "enum", "export", "extends", "false",
   "finally", "for", "function", "if", "import", "in", "instanceof", "new",
   "null", "return", "super", "switch", "this", "throw", "true", "try",
   "typeof", "var", "void", "while", "with", "implements", "private",
   "public", "interface", "package", "let", "protected", "static", "yield"]

/-- `RESERVED_WORD.test(k)`: exact membership in the alternation. -/
def isReservedWord (s : String) : Bool := RESERVED_WORDS.contains s

/-- Lower-case hexadecimal digit. -/
def hexDigitChar (n : Nat) : Char :=
  if n < 10 then Char.ofNat (48 + n) else Char.ofNat (87 + n)

/-- Escaping of one character under JSON.stringify. -/
def jsonEscapeChar (c : Char) : List Char :=
  if c = '"' then ['\\', '"']
  else if c = '\\' then ['\\', '\\']
  else if c = Char.ofNat 8 then ['\\', 'b']
  else if c = Char.ofNat 9 then ['\\', 't']
  else if c = '\n' then ['\\', 'n']
  else if c = Char.ofNat 12 then ['\\', 'f']
  else if c = '\r' then ['\\', 'r']
  else if c.toNat < 32 then
    ['\\', 'u', '0', '0', hexDigitChar (c.toNat / 16), hexDigitChar (c.toNat % 16)]
  else [c]

/-- `JSON.stringify` on a string value. -/
def jsonString (s : String) : String :=
  String.mk ('"' :: s.data.foldr (fun c acc => jsonEscapeChar c ++ acc) ['"'])

/-- One export assignment of the top-level trailer in `Replacer.replace`
(`src/src/Replacer.js` lines 141-153): reserved-word names are emitted with
bracket indexing, other names with dot notation. -/
def exportAssignment (k v : String) : String :=
  "\nexports" ++
    (if isReservedWord k then "[" ++ jsonString k ++ "]" else "." ++ k) ++
    " = " ++ v ++ ";"

/-- The full top-level export trailer appended to the replacer output. -/
def exportTrailer (exportsList : List (String × String)) : String :=
  String.join (exportsList.map (fun kv => exportAssignment kv.1 kv.2))

/-- One export assignment emitted by `Replacer.ModuleDeclaration`
(`src/src/Replacer.js` lines 292-310): always dot notation. -/
def moduleDeclExportPiece (k v : String) : String :=
  "exports." ++ k ++ " = " ++ v ++ "; "

/-- The export assignments of a `module X \x7b ... \x7d` declaration body. -/
def moduleDeclExports (exportsList : List (String × String)) : String :=
  String.join (exportsList.map (fun kv => moduleDeclExportPiece kv.1 kv.2))

/-- The loop body of `binarySearch` from `src/build/es6now.js` lines
2318-2334, with the JS `right` (which starts at `length - 1` and may reach
`-1`) encoded as `rightP1 = right + 1`; `(left + right) >> 1` is floor
division, which is `(left + rightP1 - 1) / 2` on naturals.  The fuel bounds
the number of iterations; every call supplies fuel exceeding the interval
size, which the bridging lemma shows is enough. -/
def bsAux (a : List Int) (v : Int) : Nat → Nat → Nat → Nat
  | 0, left, _ => left
  | fuel + 1, left, rightP1 =>
    if left < rightP1 then
      let mid := (left + rightP1 - 1) / 2
      let test := a.getD mid 0
      if v > test then bsAux a v fuel (mid + 1) rightP1
      else if v < test then bsAux a v fuel left mid
      else mid
    else left

/-- `binarySearch(array, val)` from `src/build/es6now.js`. -/
def binarySearch (a : List Int) (v : Int) : Nat :=
  bsAux a v (a.length + 1) 0 a.length

/-- The result of `Scanner.position` (`src/build/es6now.js` lines
2458-2477). -/
structure Position where
  line : Nat
  column : Int
  lineOffset : Int
  startOffset : Int
  endOffset : Int
deriving DecidableEq

/-- `Scanner.position` over the scanner line table (`this.lines`, initialised
to `[-1]` and extended with the offset of every line terminator): the line is
a binary search for the token start, the column is the distance from the
preceding line-break offset, and `lineOffset` is the offset of the line
start. -/
def Scanner.position (lines : List Int) (tokStart tokEnd : Int) : Position :=
  let line := binarySearch lines tokStart
  let pos := lines.getD (line - 1) 0
  { line := line, column := tokStart - pos, startOffset := tokStart,
    endOffset := tokEnd, lineOffset := pos + 1 }

/-- The structured syntax error raised by `Parser.fail`; `column : Option`
models a JS property that may be `undefined`. -/
structure SyntaxErrorInfo where
  message : String
  line : Nat
  column : Option Int
  lineOffset : Int
  startOffset : Int
  endOffset : Int
deriving DecidableEq

/-- `Parser.fail` from `src/build/es6now.js` lines 3700-3712: it copies
`pos.line`, `pos.lineOffset`, `pos.startOffset` and `pos.endOffset` onto the
error — but the line `err.column = err.column;` copies the error object's own
absent `column` property instead of `pos.column`, so the raised error carries
no column. -/
def Parser.fail (msg : String) (pos : Position) : SyntaxErrorInfo :=
  { message := msg, line := pos.line, column := none,
    lineOffset := pos.lineOffset, startOffset := pos.startOffset,
    endOffset := pos.endOffset }

/-- Decimal digit characters of a natural number, most significant first
(JS number-to-string coercion for the non-negative integers used as
temp-variable indices). -/
def natToChars (n : Nat) : List Char :=
  if h : n < 10 then [Char.ofNat (48 + n)]
  else natToChars (n / 10) ++ [Char.ofNat (48 + n % 10)]
decreasing_by exact Nat.div_lt_self (by omega) (by omega)

/-- Decimal rendering of a natural number as a string. -/
def natToString (n : Nat) : String := String.mk (natToChars n)

/-- The value of a decimal digit string, used to invert `natToChars`. -/
def digitsVal (l : List Char) : Nat :=
  l.foldl (fun a c => 10 * a + (c.toNat - 48)) 0

/-- The name built by `Replacer.addTempVar` (`src/src/Replacer.js` lines
1084-1096): `"__$" + parentFunction.tempVars.length`; each call pushes one
entry, so consecutive calls use consecutive indices. -/
def tempName (k : Nat) : String := "__$" ++ natToString k

/-- `countNewlines` on a string value. -/
def countNewlinesS (s : String) : Nat := countNewlines s.data

/-- `preserveNewlines` on a string value. -/
def preserveNewlinesS (s : String) (height : Int) : String :=
  String.mk (preserveNewlines s.data height)

/-- `Replacer.syncNewlines` (`src/src/Replacer.js` lines 1130-1134), with the
parser's line lookup abstracted as `lineNo`: pad the text up to
`lineNo(end - 1) - lineNo(start)` lines. -/
def syncNewlinesS (lineNo : Int → Int) (s e : Nat) (text : String) : String :=
  preserveNewlinesS text (lineNo ((e : Int) - 1) - lineNo (s : Int))

/-- `Replacer.ForOfStatement` (`src/src/Replacer.js` lines 164-192) built by
the same incremental appends as the source: two fresh temporaries from
`addTempVar`, the iterator assignment, the C-style `for` head (keeping the
declarator text when the left side was a declaration, else reusing the
existing binding text), the `next()/value/!done` test sequence, newline
syncing over `[left.start, body.start)`, then the body text. -/
def forOfStatement (lineNo : Int → Int) (tempCount leftStart bodyStart : Nat)
    (leftIsVarDecl : Bool)
    (leftText declPatternValue rightText bodyText : String) : String :=
  let iter := tempName tempCount
  let iterResult := tempName (tempCount + 1)
  let value := if leftIsVarDecl then declPatternValue else leftText
  let out1 := iter ++ " = _es6now.iterator(" ++ rightText ++ "); " ++ "for ("
  let out2 := out1 ++ (if leftIsVarDecl then leftText else "")
  let out3 := out2 ++ "; " ++ iterResult ++ " = " ++ iter ++ ".next()"
  let out4 := out3 ++ ", " ++ value ++ " = " ++ iterResult ++ ".value"
  let out5 := out4 ++ ", !" ++ iterResult ++ ".done"
  let out6 := out5 ++ ";) "
  syncNewlinesS lineNo leftStart bodyStart out6 ++ bodyText

/-- The for-of output contract as the specification states it: a fresh
temporary assigned from the runtime iterator helper, then a C-style loop
whose head holds the declarator (or nothing), whose test sequence assigns a
second temporary from `next()`, assigns the target from `.value` and
continues while `!done`, padded to the original line height, followed by the
rewritten body. -/
def forOfSpecForm (lineNo : Int → Int) (tempCount leftStart bodyStart : Nat)
    (leftIsVarDecl : Bool)
    (leftText declPatternValue rightText bodyText : String) : String :=
  let iter := tempName tempCount
  let res := tempName (tempCount + 1)
  let value := if leftIsVarDecl then declPatternValue else leftText
  let decl := if leftIsVarDecl then leftText else ""
  let head := iter ++ " = _es6now.iterator(" ++ rightText ++ "); for (" ++
    decl ++ "; " ++ res ++ " = " ++ iter ++ ".next(), " ++ value ++ " = " ++
    res ++ ".value, !" ++ res ++ ".done;) "
  preserveNewlinesS head
      (lineNo ((bodyStart : Int) - 1) - lineNo (leftStart : Int)) ++
    bodyText

/-- `SIGNATURE` from `src/src/Translator.js`. -/
def SIGNATURE : String := "/*=esdown=*/"

/-- `WRAP_CALLEE` from `src/src/Translator.js` (braces and apostrophes are
written as `\x7b`, `\x7d` and `\x27` escapes; the string value is the
source text verbatim). -/
def WRAP_CALLEE : String :=
  "(function(fn, name) \x7b " ++
    "if (typeof exports !== \x27undefined\x27) " ++
      "fn(require, exports, module); " ++
    "else if (typeof self !== \x27undefined\x27) " ++
      "fn(function() \x7b return \x7b\x7d \x7d, name === \x27*\x27 ? self : (self[name] = \x7b\x7d), \x7b\x7d); " ++
  "\x7d)"

/-- `MODULE_IMPORT_RUNTIME` from `src/src/Translator.js`. -/
def MODULE_IMPORT_RUNTIME : String :=
  "function __load(p, l) \x7b " ++
    "module.__es6 = !l; " ++
    "var e = require(p); " ++
    "if (e && e.constructor !== Object) " ++
      "e = Object.create(e, \x7b \x27default\x27: \x7b value: e \x7d \x7d); " ++
    "return e; " ++
  "\x7d "

/-- `MODULE_IMPORT` from `src/src/Translator.js`. -/
def MODULE_IMPORT : String :=
  "function __import(e) \x7b " ++
    "return !e || e.constructor === Object ? e : " ++
      "Object.create(e, \x7b \x27default\x27: \x7b value: e \x7d \x7d); " ++
  "\x7d "

/-- A character matched by `.` in a JS regex without the `s` flag: anything
but a line terminator. -/
def jsDotMatch (c : Char) : Bool :=
  ¬(c = '\n' ∨ c = '\r' ∨ c = lsChar ∨ c = psChar)

/-- `text.replace(/^\#\!.*\/, \x27\x27)` in `sanitize`: strip a leading
shebang line (up to, not including, the first line terminator). -/
def stripShebang : List Char → List Char
  | '#' :: '!' :: rest => rest.dropWhile jsDotMatch
  | other => other

/-- The BOM strip in `sanitize`: drop a leading U+FEFF. -/
def stripBOM : List Char → List Char
  | c :: rest => if c = Char.ofNat 0xFEFF then rest else c :: rest
  | [] => []

/-- `sanitize` from `src/src/Translator.js`: shebang strip, then BOM strip. -/
def sanitize (text : String) : String :=
  String.mk (stripBOM (stripShebang text.data))

/-- One entry of `result.imports` handed from the replacer to `wrapModule`. -/
structure ImportDep where
  url : String
  identifier : String
deriving DecidableEq

/-- The value returned by `replaceText`: the rewritten output and the import
table. -/
structure ReplaceResult where
  output : String
  imports : List ImportDep
deriving DecidableEq

/-- The options record consumed by `translate`/`wrapModule`; `global` is a
string option whose JS-falsy empty string means absent. -/
structure TranslateOptions where
  module : Bool := false
  functionContext : Bool := false
  wrap : Bool := false
  global : String := ""
  runtime : Bool := false
  polyfill : Bool := false
  runtimeImports : Bool := false
deriving DecidableEq

/-- `wrapModule` from `src/src/Translator.js` lines 102-136.  The helpers
`isLegacyScheme`/`removeScheme` come from `Schema.js`, which is not among the
checked-in sources, so they are taken as parameters. -/
def wrapModule (isLegacy : String → Bool) (removeSchemeF : String → String)
    (text : String) (imports : List ImportDep)
    (options : TranslateOptions) : String :=
  let header := "\x27use strict\x27; " ++
    (if options.runtimeImports then MODULE_IMPORT_RUNTIME else MODULE_IMPORT)
  let requires := imports.map (fun dep =>
    let legacy := isLegacy dep.url
    let url := if legacy then removeSchemeF dep.url else dep.url
    if options.runtimeImports then
      dep.identifier ++ " = __load(" ++ jsonString url ++ ", " ++
        (if legacy then "1" else "0") ++ ")"
    else
      dep.identifier ++ " = __import(require(" ++ jsonString url ++ "))")
  let header := if requires.length > 0 then
      header ++ "var " ++ String.intercalate ", " requires ++ "; "
    else header
  if options.global = "" then
    SIGNATURE ++ header ++ text
  else
    SIGNATURE ++ WRAP_CALLEE ++ "(" ++
      "function(require, exports, module) \x7b " ++ header ++ text ++
      "\n\n\x7d, " ++ jsonString options.global ++ ");"

/-- `isWrapped` from `src/src/Translator.js` lines 138-141:
`text.indexOf(SIGNATURE) === 0`, i.e. the signature is a prefix. -/
def isWrapped (text : String) : Bool :=
  SIGNATURE.data.isPrefixOf text.data

/-- `translate` from `src/src/Translator.js` lines 66-100, parameterised over
`replaceText` (imported from `./Replacer.js`, whose checked-in revision does
not export it), the `Schema.js` helpers, and the two already-rendered runtime
bundles (`wrapRuntimeAPI()`/`wrapPolyfillModules()`, which depend on the
absent `Runtime` modules).  Throwing is modelled with `Except.error`. -/
def translate (rt : String → TranslateOptions → ReplaceResult)
    (isLegacy : String → Bool) (removeSchemeF : String → String)
    (runtimeAPIWrapped polyfillModsWrapped : String)
    (input : String) (options : TranslateOptions) : Except String String :=
  let input := sanitize input
  let input := if options.functionContext then
      "(function()\x7b" ++ input ++ "\x7d)"
    else input
  let result := rt input options
  let output := result.output
  let output := if options.functionContext then
      (output.drop 12).dropRight 2
    else output
  let output := if options.runtime then
      runtimeAPIWrapped ++ "\n" ++
        (if options.polyfill then "\n" ++ polyfillModsWrapped ++ "\n" ++ output
         else output)
    else output
  if options.wrap then
    if !options.module then Except.error "Cannot wrap a non-module"
    else Except.ok (wrapModule isLegacy removeSchemeF output result.imports options)
  else Except.ok output

/-- Modelled from the spec: `replaceText` is imported by `Translator.js` from
`./Replacer.js`, but the checked-in `Replacer.js` is an earlier revision that
exports only the `Replacer` class, so the function itself is not among the
sources.  Per the specification, the default rendering is the identity on
unchanged subtrees (section 4.3) and the assembled output is import header +
rewritten body + export trailer with empty header and trailer when there are
no imports or exports (section 4.3.2); hence on an input with no imports, no
exports and no constructs requiring desugaring the replacer returns the input
unchanged with an empty import table.  This model implements exactly that
case, the only case the theorems below evaluate it on (the empty module and
the ES5-only wrapper output). -/
def replaceTextModel (input : String) (_options : TranslateOptions) :
    ReplaceResult :=
  { output := input, imports := [] }

/-- Modelled from the spec: `isLegacyScheme` from the absent `Schema.js`;
irrelevant here because it is only consulted for entries of the import table,
which is empty in every evaluation below. -/
def isLegacySchemeModel (_url : String) : Bool := false

/-- Modelled from the spec: `removeScheme` from the absent `Schema.js`;
likewise only consulted for import-table entries. -/
def removeSchemeModel (url : String) : String := url

/-- Options with `wrap` and `module` set, everything else defaulted. -/
def wrapOnlyOpts : TranslateOptions := { module := true, wrap := true }

/-- The value of `translate("", wrapOnlyOpts)` under the model: the signature
followed by the wrapper header over an empty body. -/
def esdownWrapEmptyOnce : String :=
  SIGNATURE ++ ("\x27use strict\x27; " ++ MODULE_IMPORT) ++ ""

/-- Decidable equality for `Except`, used to evaluate `translate` results. -/
instance {α β : Type} [DecidableEq α] [DecidableEq β] :
    DecidableEq (Except α β) := fun a b =>
  match a, b with
  | .ok x, .ok y =>
    if h : x = y then .isTrue (by rw [h]) else .isFalse (by simp [h])
  | .error x, .error y =>
    if h : x = y then .isTrue (by rw [h]) else .isFalse (by simp [h])
  | .ok _, .error _ => .isFalse (by simp)
  | .error _, .ok _ => .isFalse (by simp)

/-- The node types recognised by `Replacer.parentFunction`
(`src/src/Replacer.js` lines 915-933). -/
def functionNodeTypes : List String :=
  ["ArrowFunction", "FunctionDeclaration", "FunctionExpression",
   "MethodDefinition", "Script", "Module"]

/-- Membership in the `parentFunction` switch. -/
def isFnTypeB (ty : String) : Bool := functionNodeTypes.contains ty

/-- `Replacer.parentFunction` along an ancestor chain (the types of a node's
ancestors, nearest first): index and type of the first function-kind
ancestor, or `none` when the walk reaches the root. -/
def parentFunctionChain : List String → Option (Nat × String)
  | [] => none
  | ty :: rest =>
    if isFnTypeB ty then some (0, ty)
    else (parentFunctionChain rest).map (fun p => (p.1 + 1, p.2))

/-- The `while (fn = this.parentFunction(fn))` loop of
`Replacer.ThisExpression`: climb from function to enclosing function and
record (as absolute chain indices) every one that is not an arrow function —
the loop has no break, so it does not stop at the first non-arrow ancestor.
The fuel is the length of the remaining chain, which bounds the climb. -/
def climbThisFlags : Nat → List String → Nat → List Nat
  | 0, _, _ => []
  | fuel + 1, suffix, base =>
    match parentFunctionChain suffix with
    | none => []
    | some (j, ty) =>
      let rest := suffix.drop (j + 1)
      if ty = "ArrowFunction" then climbThisFlags fuel rest (base + j + 1)
      else (base + j) :: climbThisFlags fuel rest (base + j + 1)

/-- `Replacer.ThisExpression` (`src/src/Replacer.js` lines 518-530) over the
ancestor chain: when the nearest function ancestor is an arrow function, flag
`createThisBinding` on the ancestors the climb loop visits and replace the
`this` text with `__this`; otherwise no flags and default rendering
(`none`). -/
def thisExpression (chain : List String) : List Nat × Option String :=
  match parentFunctionChain chain with
  | none => ([], none)
  | some (i, ty) =>
    if ty = "ArrowFunction" then
      (climbThisFlags (chain.drop (i + 1)).length (chain.drop (i + 1)) (i + 1),
        some "__this")
    else ([], none)

/-- `Replacer.functionInsert` (`src/src/Replacer.js` lines 1051-1082) with
the per-parameter insertions (default-value guards and pattern unrollings)
and the `tempVars` rendering taken as parameters: the `createThisBinding`
flag contributes `var __this = this;` first, then the rest-parameter binding,
then the parameter insertions; a non-empty temp-variable declaration is
unshifted to the front; the pieces are joined with single spaces. -/
def functionInsert (createThisBinding createRestBinding : Bool)
    (restVarText : String) (paramInserts : List String)
    (temps : String) : String :=
  let inserted :=
    (if createThisBinding then ["var __this = this;"] else []) ++
    (if createRestBinding then [restVarText] else []) ++ paramInserts
  let inserted := if temps ≠ "" then temps :: inserted else inserted
  String.intercalate " " inserted

/-- `getPrecedence` from `src/build/es6now.js` lines 3504-3534: the binary
operator precedence switch (0 for a non-operator). -/
def getPrecedence (op : String) : Nat :=
  if op = "||" then 1
  else if op = "&&" then 2
  else if op = "|" then 3
  else if op = "^" then 4
  else if op = "&" then 5
  else if op = "==" ∨ op = "!=" ∨ op = "===" ∨ op = "!==" then 6
  else if op = "<=" ∨ op = ">=" ∨ op = ">" ∨ op = "<" ∨
      op = "instanceof" ∨ op = "in" then 7
  else if op = ">>>" ∨ op = ">>" ∨ op = "<<" then 8
  else if op = "+" ∨ op = "-" then 9
  else if op = "*" ∨ op = "/" ∨ op = "%" then 10
  else 0

/-- A token of the binary-expression layer: an operand stands for a parsed
`UnaryExpression`; an operator token's type is the operator text itself. -/
inductive BTok where
  | operand (n : Nat)
  | op (s : String)
deriving DecidableEq

/-- Binary expression tree produced by the precedence loop. -/
inductive BExpr where
  | atom (n : Nat)
  | bin (op : String) (l r : BExpr)
deriving DecidableEq

/-- `this.peek("div")`: the type string of the next token (`EOF` at the end;
an operand's type, e.g. `NUMBER`, has precedence 0). -/
def peekType : List BTok → String
  | [] => "EOF"
  | .operand _ :: _ => "NUMBER"
  | .op s :: _ => s

/-- `this.UnaryExpression()` at this layer: consume one operand. -/
def unaryExpr : List BTok → Option (BExpr × List BTok)
  | .operand n :: rest => some (.atom n, rest)
  | _ => none

mutual
/-- `Parser.PartialBinaryExpression` (`src/build/es6now.js` lines 3958-3999):
the outer while loop.  Exits when the next token is `in` under `noIn`, or is
not a binary operator, or binds less tightly than `minPrec`; otherwise reads
the operator, parses the right operand, lets the inner loop attach
tighter-binding operators to it, folds the pair into the left side, and
loops.  The fuel only bounds the two nested loops; callers supply more fuel
than tokens. -/
def partialBinary : Nat → BExpr → Nat → Bool → List BTok →
    Option (BExpr × List BTok)
  | 0, lhs, _, _, ts => some (lhs, ts)
  | fuel + 1, lhs, minPrec, noIn, ts =>
    let next := peekType ts
    if next = "in" ∧ noIn then some (lhs, ts)
    else
      let prec := getPrecedence next
      if prec = 0 ∨ prec < minPrec then some (lhs, ts)
      else
        match ts with
        | .op _ :: ts1 =>
          match unaryExpr ts1 with
          | none => none
          | some (rhs0, ts2) =>
            match innerClimb fuel rhs0 prec noIn ts2 with
            | none => none
            | some (rhs, ts3) =>
              partialBinary fuel (.bin next lhs rhs) minPrec noIn ts3
        | _ => none

/-- The inner while loop of `PartialBinaryExpression`: as long as the next
operator binds strictly tighter than the one just read, fold it into the
right operand by recursion. -/
def innerClimb : Nat → BExpr → Nat → Bool → List BTok →
    Option (BExpr × List BTok)
  | 0, rhs, _, _, ts => some (rhs, ts)
  | fuel + 1, rhs, maxPrec, noIn, ts =>
    let prec := getPrecedence (peekType ts)
    if prec = 0 ∨ prec ≤ maxPrec then some (rhs, ts)
    else
      match partialBinary fuel rhs prec noIn ts with
      | none => none
      | some (rhs2, ts2) => innerClimb fuel rhs2 maxPrec noIn ts2
end

/-- `Parser.BinaryExpression`: a unary operand followed by the precedence
loop with `minPrec = 0`. -/
def binaryExpr (noIn : Bool) (ts : List BTok) :
    Option (BExpr × List BTok) :=
  match unaryExpr ts with
  | none => none
  | some (lhs, ts1) => partialBinary (ts1.length + 1) lhs 0 noIn ts1

/-- All binary operators occurring in an expression tree. -/
def binOps : BExpr → List String
  | .atom _ => []
  | .bin o l r => o :: (binOps l ++ binOps r)

/-- Scanner state: input, cursor, strict flag, last token value, numeric
value, line table and error slot (`undefined`/absent modelled as `none`). -/
structure ScanState where
  input : List Char
  offset : Nat
  strict : Bool
  value : List Char := []
  number : Nat := 0
  lines : List Int := [-1]
  error : Option String := none
deriving DecidableEq

/-- `Scanner.Error` (`src/build/es6now.js` lines 3144-3152): advance one
character, record the message when one is given (`if (msg) this.error =
msg;`), and produce an `ILLEGAL` token type — never an exception. -/
def scanError (st : ScanState) (msg : Option String) : ScanState × String :=
  ({ st with offset := st.offset + 1,
             error := match msg with | some m => some m | none => st.error },
   "ILLEGAL")

/-- An octal digit `0`-`7`. -/
def isOctalDigit (c : Char) : Bool := 48 ≤ c.toNat ∧ c.toNat ≤ 55

/-- `parseInt(s, 8)` on a pure octal-digit string. -/
def octalVal (l : List Char) : Nat :=
  l.foldl (fun a c => 8 * a + (c.toNat - 48)) 0

/-- `parseInt(s, 16)` on a hex-digit string (empty gives the `NaN`-as-zero
of the subsequent `String.fromCharCode`). -/
def hexVal (l : List Char) : Nat :=
  l.foldl (fun a c =>
    16 * a +
      (if c.toNat ≥ 97 then c.toNat - 87
       else if c.toNat ≥ 65 then c.toNat - 55
       else c.toNat - 48)) 0

/-- The `/[0-9a-f]/i` test of `readHex`. -/
def isHexCharB (c : Char) : Bool :=
  (48 ≤ c.toNat ∧ c.toNat ≤ 57) ∨ (97 ≤ c.toNat ∧ c.toNat ≤ 102) ∨
    (65 ≤ c.toNat ∧ c.toNat ≤ 70)

/-- `isNumberFollow` (`src/build/es6now.js` lines 2390-2407): end of input
follows a number; otherwise the next character must not be an identifier
character (the unicode table for code points above 123 is the parameter
`uniIdStart`). -/
def isNumberFollow (uniIdStart : Char → Bool) : Option Char → Bool
  | none => true
  | some c =>
    let code := c.toNat
    ¬((64 < code ∧ code < 91) ∨ (96 < code ∧ code < 123) ∨
      (47 < code ∧ code < 58) ∨ code = 36 ∨ code = 95 ∨ code = 92 ∨
      (123 < code ∧ uniIdStart c))

/-- `Scanner.LegacyOctalNumber` (`src/build/es6now.js` lines 2948-2968): skip
the leading `0`, consume octal digits, then — in strict mode — produce
`ILLEGAL` with the octal error message; otherwise decode the number and
produce `NUMBER` unless an identifier character follows. -/
def legacyOctalNumber (uniIdStart : Char → Bool) (st : ScanState) :
    ScanState × String :=
  let st := { st with offset := st.offset + 1 }
  let digits := (st.input.drop st.offset).takeWhile isOctalDigit
  let st := { st with offset := st.offset + digits.length }
  if st.strict then
    scanError st (some "Octal literals are not allowed in strict mode")
  else
    let st := { st with number := octalVal digits }
    if isNumberFollow uniIdStart st.input[st.offset]? then (st, "NUMBER")
    else scanError st none

/-- The loop of `readHex` (`src/build/es6now.js` lines 2633-2651): consume
hex digits, stopping at `maxLen` when it is positive (`maxLen = 0` means
unbounded, checked only after appending).  Fuel bounds the loop; callers
pass more than the remaining input length. -/
def readHexAux (input : List Char) (maxLen : Nat) :
    Nat → Nat → List Char → Nat × List Char
  | 0, offset, str => (offset, str)
  | fuel + 1, offset, str =>
    match input[offset]? with
    | none => (offset, str)
    | some c =>
      if isHexCharB c then
        let str := str ++ [c]
        let offset := offset + 1
        if str.length = maxLen then (offset, str)
        else readHexAux input maxLen fuel offset str
      else (offset, str)

/-- `readHex` on the scanner state. -/
def readHex (st : ScanState) (maxLen : Nat) : ScanState × List Char :=
  let (o, str) := readHexAux st.input maxLen (st.input.length + 1) st.offset []
  ({ st with offset := o }, str)

/-- The `octalEscape` regex `/^(?:[0-3][0-7]\x7b0,2\x7d|[4-7][0-7]?)/`
matched against a three-character window. -/
def octalEscapeMatch : List Char → List Char
  | [] => []
  | c1 :: rest =>
    if 48 ≤ c1.toNat ∧ c1.toNat ≤ 51 then
      c1 :: (rest.take 2).takeWhile isOctalDigit
    else if 52 ≤ c1.toNat ∧ c1.toNat ≤ 55 then
      c1 :: (rest.take 1).takeWhile isOctalDigit
    else []

/-- `readOctalEscape` (`src/build/es6now.js` lines 2504-2512). -/
def readOctalEscape (st : ScanState) : ScanState × List Char :=
  let m := octalEscapeMatch ((st.input.drop st.offset).take 3)
  ({ st with offset := st.offset + m.length }, m)

/-- The result of `readStringEscape`: a decoded string, JS `null` (malformed
escape), or JS `undefined` (the backslash was the last character, so the
switch scrutinee was `undefined` and the default arm returned it). -/
inductive EscResult where
  | str (s : List Char)
  | nullEsc
  | undef
deriving DecidableEq

/-- `readStringEscape` (`src/build/es6now.js` lines 2516-2602). -/
def readStringEscape (st : ScanState) : ScanState × EscResult :=
  let st := { st with offset := st.offset + 1 }
  let chr? := st.input[st.offset]?
  let st := { st with offset := st.offset + 1 }
  match chr? with
  | none => (st, .undef)
  | some chr =>
    if chr = 't' then (st, .str ['\t'])
    else if chr = 'b' then (st, .str [Char.ofNat 8])
    else if chr = 'v' then (st, .str [Char.ofNat 11])
    else if chr = 'f' then (st, .str [Char.ofNat 12])
    else if chr = 'r' then (st, .str ['\r'])
    else if chr = 'n' then (st, .str ['\n'])
    else if chr = '\r' then
      let st := { st with lines := st.lines ++ [((st.offset - 1 : Nat) : Int)] }
      let st := if st.input[st.offset]? = some '\n' then
          { st with offset := st.offset + 1 }
        else st
      (st, .str [])
    else if chr = '\n' ∨ chr = lsChar ∨ chr = psChar then
      ({ st with lines := st.lines ++ [((st.offset - 1 : Nat) : Int)] },
       .str [])
    else if 48 ≤ chr.toNat ∧ chr.toNat ≤ 55 then
      let st := { st with offset := st.offset - 1 }
      let p := readOctalEscape st
      let st := p.1
      let esc := p.2
      if esc = ['0'] then (st, .str [Char.ofNat 0])
      else if st.strict then
        ({ st with error := some "Octal literals are not allowed in strict mode" },
         .nullEsc)
      else (st, .str [Char.ofNat (octalVal esc)])
    else if chr = 'x' then
      let p := readHex st 2
      if p.2.length < 2 then (p.1, .nullEsc)
      else (p.1, .str [Char.ofNat (hexVal p.2)])
    else if chr = 'u' then
      if st.input[st.offset]? = some (Char.ofNat 123) then
        let st := { st with offset := st.offset + 1 }
        let p := readHex st 0
        let st := p.1
        let brace? := st.input[st.offset]?
        let st := { st with offset := st.offset + 1 }
        if brace? ≠ some (Char.ofNat 125) then (st, .nullEsc)
        else (st, .str [Char.ofNat (hexVal p.2 % 65536)])
      else
        let p := readHex st 4
        if p.2.length < 4 then (p.1, .nullEsc)
        else (p.1, .str [Char.ofNat (hexVal p.2 % 65536)])
    else (st, .str [chr])

/-- The `while` loop of `Scanner.String` (`src/build/es6now.js` lines
2852-2888): stop with `STRING` at the delimiter, with `ILLEGAL` at a line
terminator, at a JS-`null` escape or at the end of input; a JS-`undefined`
escape result appends the text `undefined` (JS string coercion) and
continues.  Each iteration advances the cursor, so fuel exceeding the input
length never runs out. -/
def scanStringLoop (delim : Char) :
    Nat → ScanState → List Char → ScanState × String
  | 0, st, _ => scanError st none
  | fuel + 1, st, val =>
    match st.input[st.offset]? with
    | none => scanError st none
    | some chr =>
      if chr = delim then
        ({ st with offset := st.offset + 1, value := val }, "STRING")
      else if chr = '\r' ∨ chr = '\n' ∨ chr = lsChar ∨ chr = psChar then
        scanError st none
      else if chr = Char.ofNat 92 then
        let p := readStringEscape st
        match p.2 with
        | .nullEsc => scanError p.1 none
        | .undef =>
          scanStringLoop delim fuel p.1
            (val ++ ['u', 'n', 'd', 'e', 'f', 'i', 'n', 'e', 'd'])
        | .str s => scanStringLoop delim fuel p.1 (val ++ s)
      else
        scanStringLoop delim fuel { st with offset := st.offset + 1 }
          (val ++ [chr])

/-- `Scanner.String`: read the delimiter (the dispatch in `Start` guarantees
a quote at the cursor) and run the loop. -/
def scanString (st : ScanState) : ScanState × String :=
  let delim := st.input.getD st.offset '"'
  let st := { st with offset := st.offset + 1 }
  scanStringLoop delim (st.input.length + 2) st []

/-- The idealized whole-input line table: the offset of every line
terminator of the input, with `\r\n` recorded once at the `\r`, following
the `newlineSequence` pattern `/\r\n?|[\n\u2028\u2029]/g` of
`src/build/es6now.js`.  This is the table the scanner would hold if every
token recorded its interior line terminators.  `Scanner.Newline` (line
2763), `readStringEscape` (lines 2537/2548) and `Scanner.BlockComment`
(line 3136) do call `addLineBreak` once per terminator, but
`Scanner.Template` (lines 2803-2850) consumes raw newlines inside template
literals without recording them, so the table the program actually builds
can be a strict subsequence of this one — see the C1 theorem for the
consequence. -/
def lineBreaks : List Char → Nat → List Nat
  | [], _ => []
  | c :: rest, i =>
    if c = '\r' then
      match rest with
      | '\n' :: rest2 => i :: lineBreaks rest2 (i + 2)
      | r => i :: lineBreaks r (i + 1)
    else if c = '\n' ∨ c = lsChar ∨ c = psChar then
      i :: lineBreaks rest (i + 1)
    else lineBreaks rest (i + 1)

/-- The idealized `this.lines` table: `[-1]` (the constructor's initial
value) followed by every break offset of the input.  The scanner's actual
table agrees with this one exactly when the input has no raw line
terminator inside a template literal. -/
def idealLines (input : List Char) : List Int :=
  -1 :: (lineBreaks input 0).map Int.ofNat

/-- The line lookup used by `Replacer.lineNumber` (via `parser.location`;
the parser package itself is external, but its computation is the one of
`Scanner.position` in `src/build/es6now.js`): a binary search of the line
table. -/
def locationLine (lines : List Int) (offset : Int) : Nat :=
  binarySearch lines offset

/-- `Replacer.syncNewlines` over character lists: pad the rewritten text up
to `line(end - 1) - line(start)` newlines. -/
def syncNewlines (lines : List Int) (s e : Nat) (text : List Char) :
    List Char :=
  preserveNewlines text
    ((locationLine lines ((e : Int) - 1) : Int) -
      (locationLine lines (s : Int) : Int))

mutual
/-- An AST node as the replacer sees it: a span, an optional replacement
text returned by the node's post-hook (`none` means the hook returned
nothing and the default `stringify` rendering is used), and the children. -/
inductive PNode where
  | node (start stop : Nat) (repl : Option (List Char)) (children : PNodeList)

/-- Children list (a separate inductive so the traversal is structural). -/
inductive PNodeList where
  | nil
  | cons (head : PNode) (tail : PNodeList)
end

/-- Span start of a node. -/
def PNode.start : PNode → Nat
  | .node s _ _ _ => s

/-- Span end of a node. -/
def PNode.stop : PNode → Nat
  | .node _ e _ _ => e

mutual
/-- The `visit` closure of `Replacer.replace` (`src/src/Replacer.js` lines
83-124): children first, then the node's replacement text (or the default
`stringify` over the rewritten children), then `syncNewlines` over the
node's span. -/
def visit (input : List Char) (lines : List Int) : PNode → List Char
  | .node s e repl cs =>
    let kids := visitKids input lines cs
    let text := match repl with
      | some t => t
      | none => stringify input s e kids
    syncNewlines lines s e text

/-- The children traversal: each child's span and rewritten text, in
order. -/
def visitKids (input : List Char) (lines : List Int) :
    PNodeList → List (Nat × Nat × List Char)
  | .nil => []
  | .cons c rest =>
    (c.start, c.stop, visit input lines c) :: visitKids input lines rest
end

/-- Well-ordered child spans over a `PNodeList`. -/
def spanChainN : Nat → PNodeList → Nat → Bool
  | o, .nil, e => decide (o ≤ e)
  | o, .cons c rest, e =>
    decide (o ≤ c.start) && decide (c.start ≤ c.stop) &&
      spanChainN c.stop rest e

mutual
/-- The span well-formedness the parser guarantees for the tree handed to
the replacer, together with the properties of replacement texts used by the
line-preservation argument: spans are nested and ordered; a node with a
replacement text has a non-empty span that does not end on a line
terminator (node spans end at token ends), and the synthesized replacement
contains no carriage return. -/
def wfB (input : List Char) : PNode → Bool
  | .node s e repl cs =>
    decide (s ≤ e) && decide (e ≤ input.length) && spanChainN s cs e &&
      (match repl with
       | none => true
       | some t =>
         crFree t && decide (s < e) &&
           decide (input.getD (e - 1) ' ' ≠ '\n')) &&
      wfList input cs

/-- `wfB` on every node of a children list. -/
def wfList (input : List Char) : PNodeList → Bool
  | .nil => true
  | .cons c rest => wfB input c && wfList input rest
end

/-- The children list as a plain `List`. -/
def PNodeList.toList : PNodeList → List PNode
  | .nil => []
  | .cons c r => c :: r.toList

/-- `isNewlineChar` (`src/build/es6now.js` lines 2356-2369): carriage
return, line feed, or a unicode line/paragraph separator. -/
def isNewlineCharB (c : Char) : Bool :=
  c = '\r' ∨ c = '\n' ∨ c = lsChar ∨ c = psChar

/-- `isIdentifierPart` (`src/build/es6now.js` lines 2339-2354) on the
optional character at the cursor (`undefined` is not a part character); the
unicode table consulted for code points above 123 is the parameter
`uniIdPart`. -/
def isIdentifierPartB (uniIdPart : Char → Bool) : Option Char → Bool
  | none => false
  | some c =>
    let code := c.toNat
    (64 < code ∧ code < 91) ∨ (96 < code ∧ code < 123) ∨
      (47 < code ∧ code < 58) ∨ code = 36 ∨ code = 95 ∨ code = 92 ∨
      (123 < code ∧ uniIdPart c)

/-- `isPunctuatorNext` (`src/build/es6now.js` lines 2371-2387). -/
def isPunctuatorNextB (c : Char) : Bool :=
  c = '+' ∨ c = '-' ∨ c = '&' ∨ c = '|' ∨ c = '<' ∨ c = '>' ∨ c = '=' ∨
    c = '.'

/-- The `multiCharPunctuator` regex of `src/build/es6now.js` (lines
2258-2267) as a predicate on the candidate operator text: `[-+]\x7b2\x7d`,
`[&|]\x7b2\x7d` (each a character class repeated, so mixed pairs such as
`+-` and `&|` also match), `<<=?`, `>>>?=?`, `[!=]==`, `=>`,
`[.]\x7b2,3\x7d`, and a single punctuator character followed by `=`. -/
def multiCharPunct : List Char → Bool
  | [a, b] =>
    ((a = '-' ∨ a = '+') ∧ (b = '-' ∨ b = '+')) ∨
    ((a = '&' ∨ a = '|') ∧ (b = '&' ∨ b = '|')) ∨
    (a = '<' ∧ b = '<') ∨ (a = '>' ∧ b = '>') ∨
    (a = '=' ∧ b = '>') ∨ (a = '.' ∧ b = '.') ∨
    ((a = '-' ∨ a = '+' ∨ a = '&' ∨ a = '|' ∨ a = '<' ∨ a = '>' ∨
      a = '!' ∨ a = '=' ∨ a = '*' ∨ a = '^' ∨ a = '%' ∨ a = '/') ∧ b = '=')
  | [a, b, c] =>
    (a = '<' ∧ b = '<' ∧ c = '=') ∨
    (a = '>' ∧ b = '>' ∧ c = '>') ∨ (a = '>' ∧ b = '>' ∧ c = '=') ∨
    ((a = '!' ∨ a = '=') ∧ b = '=' ∧ c = '=') ∨
    (a = '.' ∧ b = '.' ∧ c = '.')
  | [a, b, c, d] => a = '>' ∧ b = '>' ∧ c = '>' ∧ d = '='
  | _ => false

/-- The scanner's `reservedWord` regex alternatives (`src/build/es6now.js`
lines 2243-2249). -/
def scannerReservedWords : List String :=
  ["break", "case", "catch", "class", "const", "continue", "debugger",
   "default", "delete", "do", "else", "enum", "export", "extends", "false",
   "finally", "for", "function", "if", "import", "in", "instanceof", "new",
   "null", "return", "super", "switch", "this", "throw", "true", "try",
   "typeof", "var", "void", "while", "with"]

/-- The scanner's `strictReservedWord` regex alternatives
(`src/build/es6now.js` lines 2251-2253). -/
def scannerStrictReservedWords : List String :=
  ["implements", "private", "public", "interface", "package", "let",
   "protected", "static", "yield"]

/-- The `charTable` dispatch built by the `add` calls of
`src/build/es6now.js` (lines 2286-2312): 1 = WHITESPACE, 2 = NEWLINE,
3 = DECIMAL_DIGIT, 4 = PUNCTUATOR, 5 = PUNCTUATOR_CHAR, 6 = STRING,
7 = TEMPLATE, 8 = IDENTIFIER, 9 = ZERO, 10 = DOT, 11 = SLASH, 12 = LBRACE,
0 for a code with no table entry. -/
def charCat (code : Nat) : Nat :=
  if code = 9 ∨ code = 11 ∨ code = 12 ∨ code = 32 then 1
  else if code = 13 ∨ code = 10 then 2
  else if 49 ≤ code ∧ code ≤ 57 then 3
  else if code = 123 ∨ code = 91 ∨ code = 93 ∨ code = 40 ∨ code = 41 ∨
      code = 59 ∨ code = 44 ∨ code = 63 ∨ code = 58 then 5
  else if code = 60 ∨ code = 62 ∨ code = 43 ∨ code = 45 ∨ code = 42 ∨
      code = 37 ∨ code = 38 ∨ code = 124 ∨ code = 94 ∨ code = 33 ∨
      code = 126 ∨ code = 61 then 4
  else if code = 46 then 10
  else if code = 47 then 11
  else if code = 125 then 12
  else if code = 48 then 9
  else if code = 39 ∨ code = 34 then 6
  else if code = 96 then 7
  else if code = 36 ∨ code = 95 ∨ code = 92 ∨ (65 ≤ code ∧ code ≤ 90) ∨
      (97 ≤ code ∧ code ≤ 122) then 8
  else 0

/-- `readInteger` (`src/build/es6now.js` lines 2606-2618): consume decimal
digits and return them. -/
def readInteger (st : ScanState) : ScanState × List Char :=
  let ds := (st.input.drop st.offset).takeWhile
    (fun c => 48 ≤ c.toNat ∧ c.toNat ≤ 57)
  ({ st with offset := st.offset + ds.length }, ds)

/-- `readRange` (`src/build/es6now.js` lines 2620-2631): consume characters
whose code lies in `[low, high]` and return them. -/
def readRange (low high : Nat) (st : ScanState) : ScanState × List Char :=
  let ds := (st.input.drop st.offset).takeWhile
    (fun c => low ≤ c.toNat ∧ c.toNat ≤ high)
  ({ st with offset := st.offset + ds.length }, ds)

/-- `parseInt(s, 2)` on a pure binary-digit string. -/
def binaryVal (l : List Char) : Nat :=
  l.foldl (fun a c => 2 * a + (c.toNat - 48)) 0

/-- `readIdentifierEscape` (`src/build/es6now.js` lines 2484-2508): after
the backslash, a `u` followed by `\x7b...\x7d`-delimited or four-digit hex;
`none` is the JS `null` for a malformed escape.  `String.fromCharCode`
truncates modulo 2^16 (`NaN` from an empty digit string behaves as 0). -/
def readIdentifierEscape (st : ScanState) : ScanState × Option (List Char) :=
  let c? := st.input[st.offset]?
  let st := { st with offset := st.offset + 1 }
  if c? ≠ some 'u' then (st, none)
  else if st.input[st.offset]? = some (Char.ofNat 123) then
    let st := { st with offset := st.offset + 1 }
    let p := readHex st 0
    let st := p.1
    let b? := st.input[st.offset]?
    let st := { st with offset := st.offset + 1 }
    if b? ≠ some (Char.ofNat 125) then (st, none)
    else (st, some [Char.ofNat (hexVal p.2 % 65536)])
  else
    let p := readHex st 4
    if p.2.length < 4 then (p.1, none)
    else (p.1, some [Char.ofNat (hexVal p.2 % 65536)])

/-- The shared loop of `Scanner.Identifier` and `Scanner.IdentifierName`
(`src/build/es6now.js` lines 3028-3093): consume identifier-part
characters, decoding backslash escapes; `none` is the `return this.Error()`
path on a malformed escape (the `Error` cursor bump already applied).
`start` tracks the start of the pending raw slice, exactly as in the
source.  Each iteration advances the cursor, so fuel above the remaining
input length never runs out. -/
def identLoop (uniIdPart : Char → Bool) :
    Nat → ScanState → Nat → List Char → ScanState × Option (List Char)
  | 0, st, start, id => (st, some (id ++ slice st.input start st.offset))
  | fuel + 1, st, start, id =>
    match st.input[st.offset]? with
    | none => (st, some (id ++ slice st.input start st.offset))
    | some chr =>
      if isIdentifierPartB uniIdPart (some chr) then
        if chr = Char.ofNat 92 then
          let id := id ++ slice st.input start st.offset
          let st := { st with offset := st.offset + 1 }
          let p := readIdentifierEscape st
          match p.2 with
          | none => ((scanError p.1 none).1, none)
          | some esc => identLoop uniIdPart fuel p.1 p.1.offset (id ++ esc)
        else identLoop uniIdPart fuel { st with offset := st.offset + 1 }
          start id
      else (st, some (id ++ slice st.input start st.offset))

/-- `Scanner.Identifier` (`src/build/es6now.js` lines 3028-3062): run the
loop; a reserved word (or, in strict mode, a strict reserved word) is its
own token type, otherwise the token is `IDENTIFIER` with the decoded
value. -/
def scanIdentifier (uniIdPart : Char → Bool) (st : ScanState) :
    ScanState × String :=
  match identLoop uniIdPart (st.input.length + 1) st st.offset [] with
  | (st2, none) => (st2, "ILLEGAL")
  | (st2, some id) =>
    if scannerReservedWords.contains (String.mk id) ∨
        (st2.strict ∧ scannerStrictReservedWords.contains (String.mk id)) then
      (st2, String.mk id)
    else ({ st2 with value := id }, "IDENTIFIER")

/-- `Scanner.IdentifierName` (`src/build/es6now.js` lines 3064-3093): the
same loop without the reserved-word test — used by the `name` scan
context. -/
def scanIdentifierName (uniIdPart : Char → Bool) (st : ScanState) :
    ScanState × String :=
  match identLoop uniIdPart (st.input.length + 1) st st.offset [] with
  | (st2, none) => (st2, "ILLEGAL")
  | (st2, some id) => ({ st2 with value := id }, "IDENTIFIER")

/-- `Scanner.PunctuatorChar` (`src/build/es6now.js` lines 2774-2777): the
single character at the cursor is its own token type. -/
def punctuatorChar (st : ScanState) (c : Char) : ScanState × String :=
  ({ st with offset := st.offset + 1 }, String.mk [c])

/-- The operator-growing loop of `Scanner.Punctuator` (`src/build/es6now.js`
lines 2785-2791). -/
def punctuatorOpLoop : Nat → ScanState → List Char → ScanState × List Char
  | 0, st, op => (st, op)
  | fuel + 1, st, op =>
    match st.input[st.offset]? with
    | none => (st, op)
    | some chr =>
      if isPunctuatorNextB chr ∧ multiCharPunct (op ++ [chr]) then
        punctuatorOpLoop fuel { st with offset := st.offset + 1 }
          (op ++ [chr])
      else (st, op)

/-- `Scanner.Punctuator` (`src/build/es6now.js` lines 2779-2801), including
the `..` backtrack to `.`. -/
def scanPunctuator (st : ScanState) (c : Char) : ScanState × String :=
  let st := { st with offset := st.offset + 1 }
  let p := punctuatorOpLoop (st.input.length + 1) st [c]
  if p.2 = ['.', '.'] then ({ p.1 with offset := p.1.offset - 1 }, ".")
  else (p.1, String.mk p.2)

/-- `Scanner.Whitespace` (`src/build/es6now.js` lines 2734-2748): consume
ASCII whitespace and produce no token (a JS `null`, rescanned by `next`). -/
def scanWhitespace (st : ScanState) : ScanState :=
  let st := { st with offset := st.offset + 1 }
  let ws := (st.input.drop st.offset).takeWhile
    (fun c => c.toNat = 9 ∨ c.toNat = 11 ∨ c.toNat = 12 ∨ c.toNat = 32)
  { st with offset := st.offset + ws.length }

/-- `Scanner.UnicodeWhitespace` (`src/build/es6now.js` lines 2750-2759):
the unicode whitespace class is the parameter `uniWs`. -/
def scanUnicodeWhitespace (uniWs : Char → Bool) (st : ScanState) :
    ScanState :=
  let st := { st with offset := st.offset + 1 }
  let ws := (st.input.drop st.offset).takeWhile uniWs
  { st with offset := st.offset + ws.length }

/-- `Scanner.Newline` (`src/build/es6now.js` lines 2761-2772): record the
break, advance, and treat `\r\n` as a single newline; no token is produced
(the `newlineBefore` flag is not tracked by this state model). -/
def scanNewline (code : Nat) (st : ScanState) : ScanState :=
  let st := { st with lines := st.lines ++ [(st.offset : Int)],
                      offset := st.offset + 1 }
  if code = 13 ∧ st.input[st.offset]? = some '\n' then
    { st with offset := st.offset + 1 }
  else st

/-- `Scanner.Number` (`src/build/es6now.js` lines 2971-3002): integer part,
optional fraction, optional exponent (whose digits must be non-empty), then
the `isNumberFollow` check.  The float assigned to `this.number` by
`parseFloat` is outside this Nat-valued model and left unmodelled. -/
def scanNumber (uniIdStart : Char → Bool) (st : ScanState) :
    ScanState × String :=
  let st := (readInteger st).1
  let st := if st.input[st.offset]? = some '.' then
      (readInteger { st with offset := st.offset + 1 }).1
    else st
  let next := st.input[st.offset]?
  if next = some 'e' ∨ next = some 'E' then
    let st := { st with offset := st.offset + 1 }
    let next := st.input[st.offset]?
    let st := if next = some '+' ∨ next = some '-' then
        { st with offset := st.offset + 1 }
      else st
    let p := readInteger st
    if p.2 = [] then scanError p.1 none
    else if isNumberFollow uniIdStart p.1.input[p.1.offset]? then
      (p.1, "NUMBER")
    else scanError p.1 none
  else if isNumberFollow uniIdStart st.input[st.offset]? then (st, "NUMBER")
  else scanError st none

/-- `Scanner.HexNumber` (`src/build/es6now.js` lines 3020-3026)
(`parseInt` of an empty digit string is `NaN`, modelled as 0). -/
def scanHexNumber (uniIdStart : Char → Bool) (st : ScanState) :
    ScanState × String :=
  let st := { st with offset := st.offset + 2 }
  let p := readHex st 0
  let st := { p.1 with number := hexVal p.2 }
  if isNumberFollow uniIdStart st.input[st.offset]? then (st, "NUMBER")
  else scanError st none

/-- `Scanner.BinaryNumber` (`src/build/es6now.js` lines 3004-3010). -/
def scanBinaryNumber (uniIdStart : Char → Bool) (st : ScanState) :
    ScanState × String :=
  let st := { st with offset := st.offset + 2 }
  let p := readRange 48 49 st
  let st := { p.1 with number := binaryVal p.2 }
  if isNumberFollow uniIdStart st.input[st.offset]? then (st, "NUMBER")
  else scanError st none

/-- `Scanner.OctalNumber` (`src/build/es6now.js` lines 3012-3018). -/
def scanOctalNumber (uniIdStart : Char → Bool) (st : ScanState) :
    ScanState × String :=
  let st := { st with offset := st.offset + 2 }
  let p := readRange 48 55 st
  let st := { p.1 with number := octalVal p.2 }
  if isNumberFollow uniIdStart st.input[st.offset]? then (st, "NUMBER")
  else scanError st none

/-- `Scanner.LineComment` (`src/build/es6now.js` lines 3095-3113). -/
def scanLineComment (st : ScanState) : ScanState × String :=
  let st := { st with offset := st.offset + 2 }
  let body := (st.input.drop st.offset).takeWhile
    (fun c => ¬ isNewlineCharB c)
  ({ st with offset := st.offset + body.length, value := body }, "COMMENT")

/-- The `blockCommentPattern` search of `Scanner.BlockComment`: the earliest
match of `/\r\n?|[\n  ]|\*\//` at or after `i`, as (index,
length, is-the-closing-`*/`).  Fuel above the input length never runs
out. -/
def findBcMatch (input : List Char) : Nat → Nat → Option (Nat × Nat × Bool)
  | 0, _ => none
  | fuel + 1, i =>
    match input[i]? with
    | none => none
    | some c =>
      if c = '\r' then
        some (i, (if input[i + 1]? = some '\n' then 2 else 1), false)
      else if c = '\n' ∨ c = lsChar ∨ c = psChar then some (i, 1, false)
      else if c = '*' ∧ input[i + 1]? = some '/' then some (i, 2, true)
      else findBcMatch input fuel (i + 1)

/-- The `while (true)` loop of `Scanner.BlockComment` (`src/build/es6now.js`
lines 3115-3142): no further pattern match is the `Error()` path; a newline
match records a line break and continues; `*/` closes the comment and the
value is the interior slice.  Each newline match strictly advances the
cursor, so fuel above the input length never runs out. -/
def blockCommentLoop (start : Nat) : Nat → ScanState → ScanState × String
  | 0, st => scanError st none
  | fuel + 1, st =>
    match findBcMatch st.input (st.input.length + 1) st.offset with
    | none => scanError st none
    | some (idx, len, isClose) =>
      if isClose then
        let st := { st with offset := idx + len }
        ({ st with value := slice st.input start (st.offset - 2) },
         "COMMENT")
      else
        blockCommentLoop start fuel
          { st with offset := idx + len, lines := st.lines ++ [(idx : Int)] }

/-- `Scanner.BlockComment`: skip the opening `/*` and run the loop. -/
def scanBlockComment (st : ScanState) : ScanState × String :=
  let st := { st with offset := st.offset + 2 }
  blockCommentLoop st.offset (st.input.length + 1) st

/-- The `while` loop of `Scanner.Template` (`src/build/es6now.js` lines
2803-2850): stop at a backquote (template end) or at `$\x7b` (substitution
start); a backslash runs `readStringEscape`, and `if (!esc) return
this.Error()` makes both a JS-`null` escape, a JS-`undefined` escape and an
empty line-continuation result `ILLEGAL`; any other character — INCLUDING a
raw line terminator, for which no `addLineBreak` call is made — is appended
to the value and skipped; running out of input is `ILLEGAL`.  The third
component is `this.templateEnd`. -/
def scanTemplateLoop :
    Nat → ScanState → List Char → ScanState × String × Bool
  | 0, st, _ => ((scanError st none).1, "ILLEGAL", false)
  | fuel + 1, st, val =>
    match st.input[st.offset]? with
    | none => ((scanError st none).1, "ILLEGAL", false)
    | some chr =>
      if chr = Char.ofNat 96 then
        ({ st with offset := st.offset + 1, value := val }, "TEMPLATE", true)
      else if chr = '$' ∧ st.input[st.offset + 1]? = some (Char.ofNat 123)
          then
        ({ st with offset := st.offset + 2, value := val }, "TEMPLATE",
         false)
      else if chr = Char.ofNat 92 then
        let p := readStringEscape st
        match p.2 with
        | .str s =>
          if s = [] then ((scanError p.1 none).1, "ILLEGAL", false)
          else scanTemplateLoop fuel p.1 (val ++ s)
        | .nullEsc => ((scanError p.1 none).1, "ILLEGAL", false)
        | .undef => ((scanError p.1 none).1, "ILLEGAL", false)
      else
        scanTemplateLoop fuel { st with offset := st.offset + 1 }
          (val ++ [chr])

/-- `Scanner.Template`: skip the opening backquote (or `\x7d`) and run the
loop. -/
def scanTemplate (st : ScanState) : ScanState × String × Bool :=
  let st := { st with offset := st.offset + 1 }
  scanTemplateLoop (st.input.length + 2) st []

/-- The `while (chr = this.input[this.offset++])` loop of
`Scanner.RegularExpression` (`src/build/es6now.js` lines 2892-2934): the
cursor advances on every iteration, including past the end of input; `none`
is the `Error()` path (a line terminator inside the literal, or running
out of input). -/
def regexLoop :
    Nat → ScanState → Bool → Bool → List Char →
      ScanState × Option (List Char)
  | 0, st, _, _, _ => (st, none)
  | fuel + 1, st, backslash, inClass, val =>
    match st.input[st.offset]? with
    | none => ({ st with offset := st.offset + 1 }, none)
    | some chr =>
      let st := { st with offset := st.offset + 1 }
      if isNewlineCharB chr then (st, none)
      else if backslash then
        regexLoop fuel st false inClass (val ++ [Char.ofNat 92, chr])
      else if chr = '[' then regexLoop fuel st false true (val ++ [chr])
      else if chr = ']' ∧ inClass then
        regexLoop fuel st false false (val ++ [chr])
      else if chr = '/' ∧ ¬ inClass then (st, some val)
      else if chr = Char.ofNat 92 then regexLoop fuel st true inClass val
      else regexLoop fuel st backslash inClass (val ++ [chr])

/-- `Scanner.RegularExpression` (`src/build/es6now.js` lines 2892-2946):
skip the opening slash, run the loop; on the `Error()` paths the token is
`ILLEGAL`, otherwise the flags are read with `IdentifierName` when an
identifier character follows (the source takes `.value` of
`IdentifierName()`'s returned STRING — which is `undefined` — so only the
cursor and scratch state advance) and the token is `REGEX`. -/
def scanRegularExpression (uniIdPart : Char → Bool) (st : ScanState) :
    ScanState × String :=
  let st := { st with offset := st.offset + 1 }
  match regexLoop (st.input.length + 2) st false false [] with
  | (st2, none) => scanError st2 none
  | (st2, some val) =>
    let st3 := if isIdentifierPartB uniIdPart st2.input[st2.offset]? then
        (scanIdentifierName uniIdPart st2).1
      else st2
    ({ st3 with value := val }, "REGEX")

/-- `Scanner.Start` (`src/build/es6now.js` lines 2654-2732): the
`charTable`-driven dispatch to the token scanners, with the scan context
deciding `IdentifierName` versus `Identifier`, `\x7d`-as-template versus
punctuator, and division versus regular expression; `none` is the JS
`null` result of a whitespace or newline scan (rescanned by `next`).  The
unicode classes `identifierStart`, `identifierPart` and `whitespaceChars`
are the parameters `uniIdStart`, `uniIdPart`, `uniWs`.  At the end of the
input (only reachable when called directly, since `next` tests for EOF
first) the JS `charCodeAt` yields `NaN`, the switch falls through, and
`identifierStart.test(String(undefined))` is true — the `"undefined"`
coercion starts with the letter `u` — so the dispatch lands in the
identifier scanner, which immediately produces an empty `IDENTIFIER`. -/
def scanStart (uniIdStart uniIdPart uniWs : Char → Bool) (ctx : String)
    (st : ScanState) : ScanState × Option String :=
  match st.input[st.offset]? with
  | none =>
    if ctx = "name" then
      ((scanIdentifierName uniIdPart st).1,
       some (scanIdentifierName uniIdPart st).2)
    else
      ((scanIdentifier uniIdPart st).1, some (scanIdentifier uniIdPart st).2)
  | some c =>
    let cat := charCat c.toNat
    if cat = 5 then
      ((punctuatorChar st c).1, some (punctuatorChar st c).2)
    else if cat = 1 then (scanWhitespace st, none)
    else if cat = 8 then
      if ctx = "name" then
        ((scanIdentifierName uniIdPart st).1,
         some (scanIdentifierName uniIdPart st).2)
      else
        ((scanIdentifier uniIdPart st).1,
         some (scanIdentifier uniIdPart st).2)
    else if cat = 12 then
      if ctx = "template" then
        ((scanTemplate st).1, some (scanTemplate st).2.1)
      else ((punctuatorChar st c).1, some (punctuatorChar st c).2)
    else if cat = 4 then
      ((scanPunctuator st c).1, some (scanPunctuator st c).2)
    else if cat = 2 then (scanNewline c.toNat st, none)
    else if cat = 3 then
      ((scanNumber uniIdStart st).1, some (scanNumber uniIdStart st).2)
    else if cat = 7 then ((scanTemplate st).1, some (scanTemplate st).2.1)
    else if cat = 6 then ((scanString st).1, some (scanString st).2)
    else if cat = 9 then
      match st.input[st.offset + 1]? with
      | some n =>
        if n.toNat = 88 ∨ n.toNat = 120 then
          ((scanHexNumber uniIdStart st).1,
           some (scanHexNumber uniIdStart st).2)
        else if n.toNat = 66 ∨ n.toNat = 98 then
          ((scanBinaryNumber uniIdStart st).1,
           some (scanBinaryNumber uniIdStart st).2)
        else if n.toNat = 79 ∨ n.toNat = 111 then
          ((scanOctalNumber uniIdStart st).1,
           some (scanOctalNumber uniIdStart st).2)
        else if 48 ≤ n.toNat ∧ n.toNat ≤ 55 then
          ((legacyOctalNumber uniIdStart st).1,
           some (legacyOctalNumber uniIdStart st).2)
        else
          ((scanNumber uniIdStart st).1, some (scanNumber uniIdStart st).2)
      | none =>
        ((scanNumber uniIdStart st).1, some (scanNumber uniIdStart st).2)
    else if cat = 10 then
      match st.input[st.offset + 1]? with
      | some n =>
        if 48 ≤ n.toNat ∧ n.toNat ≤ 57 then
          ((scanNumber uniIdStart st).1, some (scanNumber uniIdStart st).2)
        else ((scanPunctuator st c).1, some (scanPunctuator st c).2)
      | none => ((scanPunctuator st c).1, some (scanPunctuator st c).2)
    else if cat = 11 then
      match st.input[st.offset + 1]? with
      | some n =>
        if n.toNat = 47 then
          ((scanLineComment st).1, some (scanLineComment st).2)
        else if n.toNat = 42 then
          ((scanBlockComment st).1, some (scanBlockComment st).2)
        else if ctx = "div" then
          ((scanPunctuator st c).1, some (scanPunctuator st c).2)
        else
          ((scanRegularExpression uniIdPart st).1,
           some (scanRegularExpression uniIdPart st).2)
      | none =>
        if ctx = "div" then
          ((scanPunctuator st c).1, some (scanPunctuator st c).2)
        else
          ((scanRegularExpression uniIdPart st).1,
           some (scanRegularExpression uniIdPart st).2)
    else
      if isNewlineCharB c then (scanNewline c.toNat st, none)
      else if uniWs c then (scanUnicodeWhitespace uniWs st, none)
      else if uniIdStart c then
        if ctx = "name" then
          ((scanIdentifierName uniIdPart st).1,
           some (scanIdentifierName uniIdPart st).2)
        else
          ((scanIdentifier uniIdPart st).1,
           some (scanIdentifier uniIdPart st).2)
      else ((scanError st none).1, some (scanError st none).2)

/-- The `while (type === null)` loop of `Scanner.next`
(`src/build/es6now.js` lines 2430-2452): return `EOF` at the end of input,
otherwise rescan until `Start` produces a token.  Every `null` result
strictly advances the cursor, so fuel above the remaining input length
never runs out. -/
def scanNextAux (uniIdStart uniIdPart uniWs : Char → Bool) (ctx : String) :
    Nat → ScanState → ScanState × Option String
  | 0, st => (st, none)
  | fuel + 1, st =>
    if st.input.length ≤ st.offset then (st, some "EOF")
    else
      match scanStart uniIdStart uniIdPart uniWs ctx st with
      | (st2, some ty) => (st2, some ty)
      | (st2, none) => scanNextAux uniIdStart uniIdPart uniWs ctx fuel st2

/-- `Scanner.next` (`src/build/es6now.js` lines 2430-2452): clear the error
and value and run the token loop (the `type`/`start`/`end`/`newlineBefore`
bookkeeping fields are not tracked by this state model). -/
def scanNext (uniIdStart uniIdPart uniWs : Char → Bool) (ctx : String)
    (st : ScanState) : ScanState × Option String :=
  scanNextAux uniIdStart uniIdPart uniWs ctx (st.input.length + 1)
    { st with error := none, value := [] }

/-- A token-loop driver: call `next` until `EOF`, as the parser's token
stream does; used to compute the line table the scanner actually builds
for a whole input. -/
def scanAll (uniIdStart uniIdPart uniWs : Char → Bool) (ctx : String) :
    Nat → ScanState → ScanState
  | 0, st => st
  | fuel + 1, st =>
    match scanNext uniIdStart uniIdPart uniWs ctx st with
    | (st2, some ty) =>
      if ty = "EOF" then st2
      else scanAll uniIdStart uniIdPart uniWs ctx fuel st2
    | (st2, none) => st2

/-- The first replace of `Replacer.rawToString` (`src/src/Replacer.js` line
908): each `([^\n])?\n` match — an optional preceding non-newline character
and the newline — becomes the preceding character, `\n`, and a
backslash-newline line continuation, except that an existing
backslash-newline continuation is kept as is.  The physical newline is
preserved in the output. -/
def rawToStringNl : List Char → List Char
  | [] => []
  | '\n' :: rest =>
    Char.ofNat 92 :: 'n' :: Char.ofNat 92 :: '\n' :: rawToStringNl rest
  | c :: '\n' :: rest =>
    if c = Char.ofNat 92 then c :: '\n' :: rawToStringNl rest
    else
      c :: Char.ofNat 92 :: 'n' :: Char.ofNat 92 :: '\n' ::
        rawToStringNl rest
  | c :: rest => c :: rawToStringNl rest

/-- The second replace of `Replacer.rawToString` (`src/src/Replacer.js` line
909): each `([^"])?"` match becomes the preceding character and an escaped
quote, except after a backslash. -/
def rawToStringQuote : List Char → List Char
  | [] => []
  | '"' :: rest => Char.ofNat 92 :: '"' :: rawToStringQuote rest
  | c :: '"' :: rest =>
    if c = Char.ofNat 92 then c :: '"' :: rawToStringQuote rest
    else c :: Char.ofNat 92 :: '"' :: rawToStringQuote rest
  | c :: rest => c :: rawToStringQuote rest

/-- `Replacer.rawToString` (`src/src/Replacer.js` lines 906-912): escape
newlines (keeping them physically, via line continuations) and quotes, and
wrap in double quotes. -/
def rawToString (raw : List Char) : List Char :=
  '"' :: (rawToStringQuote (rawToStringNl raw) ++ ['"'])

/-- The accumulation loop of the untagged branch of
`Replacer.TemplateExpression` (`src/src/Replacer.js` lines 686-695): for
each literal after the first, the preceding substitution text
parenthesized between `+` operators, then the raw literal text through
`rawToString`. -/
def templateConcatAux : List Char → List (List Char × List Char) → List Char
  | out, [] => out
  | out, (sub, lit) :: rest =>
    templateConcatAux
      (out ++ (" + (").data ++ sub ++ (") + ").data ++ rawToString lit) rest

/-- The untagged branch of `Replacer.TemplateExpression`: the first
literal's raw text through `rawToString`, then each (substitution, literal)
pair (the parser supplies one substitution between consecutive
literals). -/
def templateExpressionUntagged (lit0 : List Char)
    (rest : List (List Char × List Char)) : List Char :=
  templateConcatAux (rawToString lit0) rest

/-- `Replacer.joinList` (`src/src/Replacer.js` lines 1136-1151) over
(start, end, text) items: child texts joined with the source slices between
consecutive spans, the running offset starting at `-1`. -/
def joinListAux (input : List Char) :
    Int → List (Nat × Nat × List Char) → List Char
  | _, [] => []
  | offset, (s, e, t) :: rest =>
    (if 0 ≤ offset ∧ offset < (s : Int) then slice input offset.toNat s
     else []) ++ t ++ joinListAux input (e : Int) rest

/-- `Replacer.joinList` with the initial offset `-1`. -/
def joinList (input : List Char) (items : List (Nat × Nat × List Char)) :
    List Char :=
  joinListAux input (-1) items

/-- The non-async expression-body branch of `Replacer.ArrowFunction`
(`src/src/Replacer.js` lines 499-516): the body becomes
`\x7b insert return body; \x7d` (a non-empty insert gains a trailing
space) and the whole arrow becomes a parenthesized function expression
over the joined parameter list. -/
def arrowFunctionExprBody (paramsText : List Char) (insert : String)
    (bodyText : List Char) : List Char :=
  let insert := if insert ≠ "" then insert ++ " " else insert
  ("(function(").data ++ paramsText ++ (") \x7b ").data ++ insert.data ++
    ("return ").data ++ bodyText ++ ("; \x7d)").data

/-- The C1 failing input `x =>\n` followed by a backquoted `a\nb` template:
an arrow function whose body is a multi-line template literal, with the
arrow's newline before the body. -/
def c1input : List Char :=
  ['x', ' ', '=', '>', '\n', Char.ofNat 96, 'a', '\n', 'b', Char.ofNat 96]

/-- The line table the scanner actually builds for `c1input`: the newline
token at offset 4 is recorded, the raw newline at offset 7 inside the
template literal is not (established against the embedded scanner by the
C1 theorem). -/
def c1lines : List Int := [-1, 4]

/-- The template's replacement text per `Replacer.TemplateExpression`:
`rawToString` of the single literal `a\nb`. -/
def c1templateOut : List Char := templateExpressionUntagged ['a', '\n', 'b'] []

/-- The template node `[5, 10)` with its handler replacement. -/
def c1templateNode : PNode := .node 5 10 (some c1templateOut) .nil

/-- The arrow's replacement text per `Replacer.ArrowFunction`: parameter
list `x` joined by `joinList`, the empty `functionInsert`, and the visited
(synced) template text as the expression body.  The newline after `=>` is
not part of any reproduced child text. -/
def c1arrowOut : List Char :=
  arrowFunctionExprBody (joinList c1input [(0, 1, slice c1input 0 1)])
    (functionInsert false false "" [] "")
    (visit c1input c1lines c1templateNode)

/-- The parse tree of `c1input` as the replacer sees it: RootNode, Script
and ExpressionStatement (all default-stringified — `Script` defers to
`Module`, which returns `undefined` for a script without a this-binding or
temp vars), the arrow with its handler text, and inside it the parameter
`x` and the template node. -/
def c1tree : PNode :=
  .node 0 10 none (.cons
    (.node 0 10 none (.cons
      (.node 0 10 none (.cons
        (.node 0 10 (some c1arrowOut) (.cons (.node 0 1 none .nil)
          (.cons c1templateNode .nil)))
        .nil))
      .nil))
    .nil)

/-- The replacer's output on `c1input`: the rewritten arrow, whose only
newline is the one `rawToString` preserved inside the string literal. -/
def c1output : List Char :=
  ("(function(x) \x7b return \"a\\n\\\nb\"; \x7d)").data

-- DEFS-ANCHOR (further definitions are inserted above this line)

theorem countNewlines_nil : countNewlines [] = 0 := by
  rw [countNewlines.eq_def]

theorem countNewlines_cons_of_ne_cr (c : Char) (t : List Char) (h : c ≠ '\r') :
    countNewlines (c :: t) = (if c = '\n' then 1 else 0) + countNewlines t := by
  rw [countNewlines.eq_def]
  dsimp only
  rw [if_neg h]
  by_cases hn : c = '\n' <;> simp [hn] <;> omega

theorem countNewlines_crlf (t : List Char) :
    countNewlines ('\r' :: '\n' :: t) = 1 + countNewlines t := by
  rw [countNewlines.eq_def]
  simp
  omega

theorem countNewlines_cr_cons (d : Char) (t : List Char) (h : d ≠ '\n') :
    countNewlines ('\r' :: d :: t) = 1 + countNewlines (d :: t) := by
  conv_lhs => rw [countNewlines.eq_def]
  dsimp only
  simp only [reduceIte]
  split
  · rename_i rest2 heq
    injection heq with h1 h2
    exact absurd h1 h
  · omega

theorem countNewlines_replicate_lf (k : Nat) :
    countNewlines (List.replicate k '\n') = k := by
  induction k with
  | zero => simp [List.replicate, countNewlines_nil]
  | succ m ih =>
    rw [List.replicate_succ, countNewlines_cons_of_ne_cr _ _ (by decide)]
    simp [ih]
    omega

theorem noTrailingCR_tail (c d : Char) (t : List Char)
    (h : noTrailingCR (c :: d :: t) = true) : noTrailingCR (d :: t) = true := by
  simpa [noTrailingCR, List.getLast?] using h

theorem crFree_noTrailingCR (l : List Char) (h : crFree l = true) :
    noTrailingCR l = true := by
  cases l using List.reverseRecOn with
  | nil => rfl
  | append_singleton front c =>
    have hc : c ≠ '\r' := by
      have := (List.all_eq_true.mp h) c (List.mem_append_right front (by simp))
      simpa using this
    simp [noTrailingCR, List.getLast?_concat, hc]

theorem countNewlines_append (l m : List Char) (h : noTrailingCR l = true) :
    countNewlines (l ++ m) = countNewlines l + countNewlines m := by
  generalize hn : l.length = n
  induction n using Nat.strong_induction_on generalizing l m with
  | _ n ih =>
    match l, h, hn with
    | [], _, _ => simp [countNewlines_nil]
    | [c], h, hn =>
      have hc : c ≠ '\r' := by simpa [noTrailingCR] using h
      rw [List.cons_append, List.nil_append,
        countNewlines_cons_of_ne_cr _ _ hc, countNewlines_cons_of_ne_cr _ _ hc]
      simp [countNewlines_nil]
    | c :: d :: t, h, hn =>
      have htail : noTrailingCR (d :: t) = true := noTrailingCR_tail c d t h
      simp only [List.length_cons] at hn
      by_cases hc : c = '\r'
      · subst hc
        by_cases hd : d = '\n'
        · subst hd
          simp only [List.cons_append]
          rw [countNewlines_crlf, countNewlines_crlf]
          have htt : noTrailingCR t = true := by
            cases t with
            | nil => rfl
            | cons e r => exact noTrailingCR_tail _ _ _ htail
          rw [ih t.length (by omega) t m htt rfl]
          omega
        · simp only [List.cons_append]
          rw [countNewlines_cr_cons _ _ hd, countNewlines_cr_cons _ _ hd]
          have hrec := ih (d :: t).length (by simp; omega) (d :: t) m htail rfl
          simp only [List.cons_append] at hrec
          omega
      · simp only [List.cons_append]
        rw [countNewlines_cons_of_ne_cr _ _ hc, countNewlines_cons_of_ne_cr _ _ hc]
        have hrec := ih (d :: t).length (by simp; omega) (d :: t) m htail rfl
        simp only [List.cons_append] at hrec
        omega

theorem countNewlines_preserveNewlines (text : List Char) (height : Int)
    (h : noTrailingCR text = true) (hh : 0 ≤ height) :
    (countNewlines (preserveNewlines text height) : Int) =
      max (countNewlines text : Int) height := by
  unfold preserveNewlines
  by_cases hc : 0 < height ∧ ((countNewlines text : Nat) : Int) < height
  · rw [if_pos hc, countNewlines_append _ _ h, countNewlines_replicate_lf]
    omega
  · rw [if_neg hc]
    omega

theorem preserveNewlines_ge (text : List Char) (height : Int)
    (h : noTrailingCR text = true) :
    countNewlines text ≤ countNewlines (preserveNewlines text height) := by
  unfold preserveNewlines
  by_cases hc : 0 < height ∧ ((countNewlines text : Nat) : Int) < height
  · rw [if_pos hc, countNewlines_append _ _ h]
    omega
  · rw [if_neg hc]

theorem preserveNewlines_ge_height (text : List Char) (height : Int)
    (h : noTrailingCR text = true) :
    height ≤ (countNewlines (preserveNewlines text height) : Int) ∨ height ≤ 0 := by
  by_cases hh : 0 ≤ height
  · left
    rw [countNewlines_preserveNewlines text height h hh]
    omega
  · right; omega

theorem slice_append_slice (input : List Char) (a b c : Nat)
    (hab : a ≤ b) (hbc : b ≤ c) :
    slice input a b ++ slice input b c = slice input a c := by
  unfold slice
  have h1 : c - a = (b - a) + (c - b) := by omega
  have h2 : a + (b - a) = b := by omega
  rw [h1, List.take_add, List.drop_drop, h2]

theorem slice_self (input : List Char) (a : Nat) : slice input a a = [] := by
  simp [slice]

theorem spanChain_le (o : Nat) (kids : List (Nat × Nat × List Char)) (e : Nat)
    (h : spanChain o kids e = true) : o ≤ e := by
  induction kids generalizing o with
  | nil => simpa [spanChain] using h
  | cons k rest ih =>
    obtain ⟨cs, ce, t⟩ := k
    simp only [spanChain, Bool.and_eq_true, decide_eq_true_eq] at h
    exact le_trans h.1.1 (le_trans h.1.2 (ih ce h.2))

theorem stringifyFrom_identity (input : List Char) (e : Nat)
    (kids : List (Nat × Nat × List Char)) (o : Nat)
    (hwf : spanChain o kids e = true)
    (htext : ∀ x ∈ kids, x.2.2 = slice input x.1 x.2.1) :
    stringifyFrom input e o kids = slice input o e := by
  induction kids generalizing o with
  | nil =>
    have hoe : o ≤ e := by simpa [spanChain] using hwf
    by_cases hlt : o < e
    · simp [stringifyFrom, hlt]
    · have : o = e := by omega
      subst this
      simp [stringifyFrom, slice_self]
  | cons k rest ih =>
    obtain ⟨cs, ce, t⟩ := k
    simp only [spanChain, Bool.and_eq_true, decide_eq_true_eq] at hwf
    obtain ⟨⟨hocs, hcse⟩, hrest⟩ := hwf
    have hce : ce ≤ e := spanChain_le ce rest e hrest
    have ht : t = slice input cs ce := htext (cs, ce, t) (by simp)
    have hihs : stringifyFrom input e ce rest = slice input ce e :=
      ih ce hrest (fun x hx => htext x (List.mem_cons_of_mem _ hx))
    simp only [stringifyFrom, hihs, ht]
    by_cases hlt : o < cs
    · rw [if_pos hlt, List.append_assoc,
        slice_append_slice input cs ce e hcse hce,
        slice_append_slice input o cs e (by omega) (le_trans hcse hce)]
    · have : o = cs := by omega
      subst this
      rw [if_neg hlt, List.nil_append,
        slice_append_slice input o ce e hcse hce]

/-- C9: the default rendering is the identity on unchanged subtrees — if every
child's rewritten text equals its own source slice and the child spans are
ordered and nested inside `[s, e)`, then `stringify` returns exactly the
source slice `[s, e)` of the input. -/
theorem C9_stringify_identity (input : List Char) (s e : Nat)
    (kids : List (Nat × Nat × List Char))
    (hwf : spanChain s kids e = true)
    (htext : ∀ x ∈ kids, x.2.2 = slice input x.1 x.2.1) :
    stringify input s e kids = slice input s e :=
  stringifyFrom_identity input e kids s hwf htext

/-- Witness for C9 at a concrete input: node `[0, 3)` over `"a+b"` with
children `[0,1)` and `[2,3)` carrying their own source slices renders to the
full source slice. -/
theorem C9_stringify_identity_witness :
    stringify ['a', '+', 'b'] 0 3 [(0, 1, ['a']), (2, 3, ['b'])] =
      slice ['a', '+', 'b'] 0 3 :=
  C9_stringify_identity ['a', '+', 'b'] 0 3 [(0, 1, ['a']), (2, 3, ['b'])]
    (by decide) (by decide)

/-- C10 counterexample: for `s = "\r"` and `height = 2` the padded result is
`"\r\n"`, whose newline count is `1`, not `max (countNewlines s) 2 = 2` —
the appended line feed merges with the trailing carriage return under the
`/\r\n?|\n/` count. -/
theorem C10_preserveNewlines_counterexample :
    (countNewlines (preserveNewlines ['\r'] 2) : Int) ≠
      max (countNewlines ['\r'] : Int) 2 := by
  decide

/-- C10 (amended): `preserveNewlines s height` returns `s` unchanged when
`height ≤ 0` or `s` already has at least `height` newlines, and otherwise
appends exactly `height - countNewlines s` trailing line feeds; the count
identity `countNewlines (preserveNewlines s height) = max (countNewlines s)
height` holds for `height ≥ 0` provided `s` does not end with a carriage
return. -/
theorem C10_preserveNewlines_behaviour :
    (∀ (s : List Char) (h : Int),
      (h ≤ 0 ∨ h ≤ (countNewlines s : Int)) → preserveNewlines s h = s) ∧
    (∀ (s : List Char) (h : Int), 0 < h → (countNewlines s : Int) < h →
      preserveNewlines s h =
        s ++ List.replicate (h - countNewlines s).toNat '\n') ∧
    (∀ (s : List Char) (h : Int), noTrailingCR s = true → 0 ≤ h →
      (countNewlines (preserveNewlines s h) : Int) =
        max (countNewlines s : Int) h) := by
  refine ⟨?_, ?_, ?_⟩
  · intro s h hcond
    unfold preserveNewlines
    rw [if_neg]
    omega
  · intro s h h0 hlt
    unfold preserveNewlines
    rw [if_pos ⟨h0, hlt⟩]
  · intro s h hcr hh
    exact countNewlines_preserveNewlines s h hcr hh

/-- Witness for C10 (amended) at concrete inputs: unchanged at non-positive
height, padded with two line feeds at height 2, and the count identity at a
text with no trailing carriage return. -/
theorem C10_preserveNewlines_behaviour_witness :
    preserveNewlines ['a'] 0 = ['a'] ∧
    preserveNewlines ['a'] 2 = ['a'] ++ List.replicate 2 '\n' ∧
    (countNewlines (preserveNewlines ['a'] 2) : Int) =
      max (countNewlines ['a'] : Int) 2 := by
  refine ⟨?_, ?_, ?_⟩
  · exact C10_preserveNewlines_behaviour.1 ['a'] 0 (Or.inl (by decide))
  · have := C10_preserveNewlines_behaviour.2.1 ['a'] 2 (by decide) (by decide)
    simpa using this
  · exact C10_preserveNewlines_behaviour.2.2 ['a'] 2 (by decide) (by decide)

/-- C7 counterexample: `"new"` is a reserved word, yet the export assignment
emitted inside a `ModuleDeclaration` body uses dot notation
(`exports.new = new; `), not bracket indexing — so the reserved-word
bracket rule does not hold at every place the replacer emits export
assignments. -/
theorem C7_reserved_export_counterexample :
    isReservedWord "new" = true ∧
    moduleDeclExports [("new", "new")] = "exports.new = new; " ∧
    moduleDeclExports [("new", "new")] ≠
      "exports[" ++ jsonString "new" ++ "] = new; " := by
  refine ⟨by decide, by decide, by decide⟩

/-- C7 (amended): the top-level export trailer of `Replacer.replace` emits
bracket indexing for every reserved-word name (and dot notation otherwise),
but the `ModuleDeclaration` trailer always uses dot notation, reserved word
or not. -/
theorem C7_reserved_export (k v : String) :
    (isReservedWord k = true →
      exportAssignment k v =
        "\nexports" ++ ("[" ++ jsonString k ++ "]") ++ " = " ++ v ++ ";") ∧
    (isReservedWord k = false →
      exportAssignment k v =
        "\nexports" ++ ("." ++ k) ++ " = " ++ v ++ ";") ∧
    moduleDeclExportPiece k v = "exports." ++ k ++ " = " ++ v ++ "; " := by
  refine ⟨?_, ?_, rfl⟩
  · intro h
    unfold exportAssignment
    rw [if_pos h]
  · intro h
    unfold exportAssignment
    rw [if_neg (by simp [h])]

/-- Witness for C7 (amended): the reserved word `new` is emitted with
brackets by the top-level trailer and with dot notation inside a module
declaration. -/
theorem C7_reserved_export_witness :
    exportAssignment "new" "x" =
      "\nexports" ++ ("[" ++ jsonString "new" ++ "]") ++ " = " ++ "x" ++ ";" ∧
    moduleDeclExportPiece "new" "x" = "exports." ++ "new" ++ " = " ++ "x" ++ "; " :=
  ⟨(C7_reserved_export "new" "x").1 (by decide),
   (C7_reserved_export "new" "x").2.2⟩

/-- C3: `Parser.fail` raises a structured error that carries the message, the
1-based line, and the lineOffset/startOffset/endOffset of the offending
token, but its `column` assignment reads the error's own absent property
(`err.column = err.column;`), so the carried column is `undefined` even
though `Scanner.position` computed the 1-based column.  Evaluated for the
non-parsing input `"+"`, which fails at the end-of-input token `[1, 1)` with
scanner line table `[-1]`. -/
theorem C3_fail_drops_column :
    (Scanner.position [-1] 1 1).line = 1 ∧
    (Scanner.position [-1] 1 1).column = 2 ∧
    (Parser.fail "Unexpected end of input" (Scanner.position [-1] 1 1)).message
      = "Unexpected end of input" ∧
    (Parser.fail "Unexpected end of input" (Scanner.position [-1] 1 1)).line = 1 ∧
    (Parser.fail "Unexpected end of input" (Scanner.position [-1] 1 1)).lineOffset = 0 ∧
    (Parser.fail "Unexpected end of input" (Scanner.position [-1] 1 1)).startOffset = 1 ∧
    (Parser.fail "Unexpected end of input" (Scanner.position [-1] 1 1)).endOffset = 1 ∧
    (Parser.fail "Unexpected end of input" (Scanner.position [-1] 1 1)).column = none := by
  refine ⟨by decide, by decide, rfl, by decide, by decide, by decide, by decide, by decide⟩

theorem char_ofNat_toNat_digit (m : Nat) (h : m < 10) :
    (Char.ofNat (48 + m)).toNat = 48 + m := by
  interval_cases m <;> decide

theorem digitsVal_natToChars (n : Nat) : digitsVal (natToChars n) = n := by
  induction n using Nat.strong_induction_on with
  | _ n ih =>
    rw [natToChars.eq_def]
    by_cases h : n < 10
    · rw [dif_pos h]
      show 10 * 0 + ((Char.ofNat (48 + n)).toNat - 48) = n
      rw [char_ofNat_toNat_digit n h]
      omega
    · rw [dif_neg h]
      have hlt : n / 10 < n := Nat.div_lt_self (by omega) (by omega)
      have hm : n % 10 < 10 := Nat.mod_lt _ (by omega)
      unfold digitsVal
      rw [List.foldl_append]
      have hrec : digitsVal (natToChars (n / 10)) = n / 10 := ih (n / 10) hlt
      unfold digitsVal at hrec
      rw [hrec]
      show 10 * (n / 10) + ((Char.ofNat (48 + n % 10)).toNat - 48) = n
      rw [char_ofNat_toNat_digit _ hm]
      omega

theorem natToChars_injective (m n : Nat) (h : natToChars m = natToChars n) :
    m = n := by
  have := congrArg digitsVal h
  rwa [digitsVal_natToChars, digitsVal_natToChars] at this

theorem tempName_ne_succ (k : Nat) : tempName k ≠ tempName (k + 1) := by
  intro h
  have hd := congrArg String.data h
  simp only [tempName, natToString, String.data_append] at hd
  have h2 : natToChars k = natToChars (k + 1) := List.append_cancel_left hd
  exact absurd (natToChars_injective _ _ h2) (by omega)

theorem string_assoc_merge1 (x : String) :
    ("); " : String) ++ ("for (" ++ x) = "); for (" ++ x := by
  rw [← String.append_assoc]
  congr 1

theorem string_assoc_merge2 (x : String) :
    (".next()" : String) ++ (", " ++ x) = ".next(), " ++ x := by
  rw [← String.append_assoc]
  congr 1

theorem string_assoc_merge3 (x : String) :
    (".value" : String) ++ (", !" ++ x) = ".value, !" ++ x := by
  rw [← String.append_assoc]
  congr 1

theorem string_assoc_merge4 :
    (".done" : String) ++ ";) " = ".done;) " := by
  decide

/-- C5: the `ForOfStatement` replacement equals the contract form stated in
the specification — `__$i = _es6now.iterator(<iter>); for (<decl>; __$r =
__$i.next(), <x> = __$r.value, !__$r.done;) <body>` with the declarator kept
in the head when the left side was a declaration and the existing binding
text reused otherwise, line-synced over `[left.start, body.start)` — and the
two temporaries drawn from `addTempVar` are distinct. -/
theorem C5_forOfStatement (lineNo : Int → Int)
    (tempCount leftStart bodyStart : Nat) (leftIsVarDecl : Bool)
    (leftText declPatternValue rightText bodyText : String) :
    forOfStatement lineNo tempCount leftStart bodyStart leftIsVarDecl
        leftText declPatternValue rightText bodyText =
      forOfSpecForm lineNo tempCount leftStart bodyStart leftIsVarDecl
        leftText declPatternValue rightText bodyText ∧
    tempName tempCount ≠ tempName (tempCount + 1) := by
  refine ⟨?_, tempName_ne_succ tempCount⟩
  unfold forOfStatement forOfSpecForm syncNewlinesS
  simp only [String.append_assoc, string_assoc_merge1, string_assoc_merge2,
    string_assoc_merge3, string_assoc_merge4]

theorem list_isPrefixOf_append_self (l m : List Char) :
    l.isPrefixOf (l ++ m) = true := by
  induction l with
  | nil => simp [List.isPrefixOf]
  | cons c rest ih => simpa [List.isPrefixOf] using ih

theorem isWrapped_signature_append (s : String) :
    isWrapped (SIGNATURE ++ s) = true := by
  unfold isWrapped
  rw [String.data_append]
  exact list_isPrefixOf_append_self _ _

/-- C2 counterexample: with `replaceText` modelled as the identity on
desugaring-free module text, `translate("", opts)` with `opts.wrap = true`
and `opts.module = true` yields the wrapped empty module, but translating
that output again does not return it unchanged — `translate` performs no
signature detection, so `translate(translate(x, opts), opts) ≠
translate(x, opts)` at `x = ""`. -/
theorem C2_translate_not_idempotent_counterexample :
    translate replaceTextModel isLegacySchemeModel removeSchemeModel "" ""
        "" wrapOnlyOpts = Except.ok esdownWrapEmptyOnce ∧
    translate replaceTextModel isLegacySchemeModel removeSchemeModel "" ""
        esdownWrapEmptyOnce wrapOnlyOpts ≠ Except.ok esdownWrapEmptyOnce := by
  constructor
  · decide
  · decide

/-- C2 (amended): `translate` never consults `isWrapped` and re-wraps
unconditionally, so double translation is not the identity; what holds
instead is that for every `replaceText`, every input and every options value
with `wrap = true` and `module = true`, a successful `translate` output
begins with the `/*=esdown=*/` signature — `isWrapped` merely reports that
prefix for collaborators, which perform the detection themselves before
calling `translate`. -/
theorem C2_translate_wrap_signature
    (rt : String → TranslateOptions → ReplaceResult)
    (isLegacy : String → Bool) (removeSchemeF : String → String)
    (runtimeAPIWrapped polyfillModsWrapped : String)
    (x : String) (opts : TranslateOptions) (out : String)
    (hw : opts.wrap = true) (hm : opts.module = true)
    (hok : translate rt isLegacy removeSchemeF runtimeAPIWrapped
        polyfillModsWrapped x opts = Except.ok out) :
    isWrapped out = true := by
  unfold translate at hok
  rw [hw, hm] at hok
  simp only [if_true, Bool.not_true, Bool.false_eq_true, if_false] at hok
  have hout : out = wrapModule isLegacy removeSchemeF _ (rt _ opts).imports opts :=
    (Except.ok.injEq _ _).mp hok.symm
  rw [hout]
  unfold wrapModule
  by_cases hg : opts.global = ""
  · rw [if_pos hg]
    simp only [String.append_assoc]
    exact isWrapped_signature_append _
  · rw [if_neg hg]
    simp only [String.append_assoc]
    exact isWrapped_signature_append _

/-- Witness for C2 (amended): the concrete wrapped empty module begins with
the signature. -/
theorem C2_translate_wrap_signature_witness :
    isWrapped esdownWrapEmptyOnce = true :=
  C2_translate_wrap_signature replaceTextModel isLegacySchemeModel
    removeSchemeModel "" "" "" wrapOnlyOpts esdownWrapEmptyOnce
    rfl rfl (by decide)

theorem getD_drop_chain (l : List String) (n m : Nat) :
    (l.drop n).getD m "" = l.getD (n + m) "" := by
  induction l generalizing n m with
  | nil => simp [List.getD]
  | cons c t ih =>
    cases n with
    | zero => simp
    | succ k =>
      simp only [List.drop_succ_cons]
      rw [ih k m]
      simp [List.getD_cons_succ, Nat.succ_add]

theorem pfc_none_no_fn (suffix : List String)
    (h : parentFunctionChain suffix = none) :
    ∀ k, k < suffix.length → isFnTypeB (suffix.getD k "") = false := by
  induction suffix with
  | nil => intro k hk; simp at hk
  | cons ty rest ih =>
    intro k hk
    unfold parentFunctionChain at h
    by_cases hf : isFnTypeB ty = true
    · rw [if_pos hf] at h; exact absurd h (by simp)
    · rw [if_neg hf] at h
      have hrest : parentFunctionChain rest = none := by
        cases hr : parentFunctionChain rest with
        | none => rfl
        | some p => rw [hr] at h; simp at h
      cases k with
      | zero =>
        rw [List.getD_cons_zero]
        cases hb : isFnTypeB ty with
        | false => rfl
        | true => exact absurd hb hf
      | succ m =>
        rw [List.getD_cons_succ]
        exact ih hrest m (by simpa using hk)

theorem pfc_some_spec (suffix : List String) (j : Nat) (ty : String)
    (h : parentFunctionChain suffix = some (j, ty)) :
    j < suffix.length ∧ suffix.getD j "" = ty ∧ isFnTypeB ty = true ∧
      ∀ k, k < j → isFnTypeB (suffix.getD k "") = false := by
  induction suffix generalizing j with
  | nil => simp [parentFunctionChain] at h
  | cons ty0 rest ih =>
    unfold parentFunctionChain at h
    by_cases hf : isFnTypeB ty0 = true
    · rw [if_pos hf] at h
      simp only [Option.some.injEq, Prod.mk.injEq] at h
      obtain ⟨hj, hty⟩ := h
      subst hty
      subst hj
      refine ⟨by simp, by simp, hf, fun k hk => by omega⟩
    · rw [if_neg hf] at h
      cases hr : parentFunctionChain rest with
      | none => rw [hr] at h; simp at h
      | some p =>
        obtain ⟨j0, ty1⟩ := p
        rw [hr] at h
        simp only [Option.map_some', Option.some.injEq, Prod.mk.injEq] at h
        obtain ⟨hj, hty⟩ := h
        subst hty
        obtain ⟨hlt, hget, hfn, hmin⟩ := ih j0 hr
        refine ⟨?_, ?_, hfn, ?_⟩
        · simp; omega
        · rw [← hj]
          simpa [List.getD_cons_succ] using hget
        · intro k hk
          cases k with
          | zero =>
            rw [List.getD_cons_zero]
            cases hb : isFnTypeB ty0 with
            | false => rfl
            | true => exact absurd hb hf
          | succ m =>
            rw [List.getD_cons_succ]
            exact hmin m (by omega)

theorem climb_mem (fuel : Nat) (suffix : List String) (base : Nat)
    (hfuel : suffix.length ≤ fuel) (j : Nat) :
    j ∈ climbThisFlags fuel suffix base ↔
      ∃ k, k < suffix.length ∧ j = base + k ∧
        isFnTypeB (suffix.getD k "") = true ∧
        suffix.getD k "" ≠ "ArrowFunction" := by
  induction fuel generalizing suffix base with
  | zero =>
    have : suffix = [] := List.length_eq_zero.mp (by omega)
    subst this
    simp [climbThisFlags]
  | succ fuel ih =>
    unfold climbThisFlags
    cases hp : parentFunctionChain suffix with
    | none =>
      simp only [List.not_mem_nil, false_iff]
      rintro ⟨k, hk, _, hfn, _⟩
      rw [pfc_none_no_fn suffix hp k hk] at hfn
      exact absurd hfn (by simp)
    | some p =>
      obtain ⟨j0, ty⟩ := p
      obtain ⟨hlt, hget, hfn, hmin⟩ := pfc_some_spec suffix j0 ty hp
      have hrest_len : (suffix.drop (j0 + 1)).length ≤ fuel := by
        rw [List.length_drop]; omega
      have hrec := ih (suffix.drop (j0 + 1)) (base + j0 + 1) hrest_len
      have hdropget : ∀ m, (suffix.drop (j0 + 1)).getD m "" =
          suffix.getD (j0 + 1 + m) "" := fun m => getD_drop_chain suffix (j0 + 1) m
      dsimp only
      by_cases harrow : ty = "ArrowFunction"
      · rw [if_pos harrow]
        rw [hrec]
        constructor
        · rintro ⟨k, hk, hj, hfnk, hna⟩
          rw [List.length_drop] at hk
          refine ⟨j0 + 1 + k, by omega, by omega, ?_, ?_⟩
          · rw [← hdropget k]; exact hfnk
          · rw [← hdropget k]; exact hna
        · rintro ⟨k, hk, hj, hfnk, hna⟩
          have hkj0 : j0 < k ∨ k = j0 ∨ k < j0 := by omega
          rcases hkj0 with hgt | heq | hlt2
          · refine ⟨k - (j0 + 1), ?_, by omega, ?_, ?_⟩
            · rw [List.length_drop]; omega
            · rw [hdropget]
              have : j0 + 1 + (k - (j0 + 1)) = k := by omega
              rw [this]; exact hfnk
            · rw [hdropget]
              have : j0 + 1 + (k - (j0 + 1)) = k := by omega
              rw [this]; exact hna
          · subst heq
            rw [hget] at hfnk hna
            subst harrow
            exact absurd rfl hna
          · rw [hmin k hlt2] at hfnk
            exact absurd hfnk (by simp)
      · rw [if_neg harrow]
        simp only [List.mem_cons, hrec]
        constructor
        · rintro (hj | ⟨k, hk, hj, hfnk, hna⟩)
          · exact ⟨j0, hlt, by omega, by rw [hget]; exact hfn,
              by rw [hget]; exact harrow⟩
          · rw [List.length_drop] at hk
            refine ⟨j0 + 1 + k, by omega, by omega, ?_, ?_⟩
            · rw [← hdropget k]; exact hfnk
            · rw [← hdropget k]; exact hna
        · rintro ⟨k, hk, hj, hfnk, hna⟩
          have hkj0 : j0 < k ∨ k = j0 ∨ k < j0 := by omega
          rcases hkj0 with hgt | heq | hlt2
          · right
            refine ⟨k - (j0 + 1), ?_, by omega, ?_, ?_⟩
            · rw [List.length_drop]; omega
            · rw [hdropget]
              have : j0 + 1 + (k - (j0 + 1)) = k := by omega
              rw [this]; exact hfnk
            · rw [hdropget]
              have : j0 + 1 + (k - (j0 + 1)) = k := by omega
              rw [this]; exact hna
          · left; omega
          · rw [hmin k hlt2] at hfnk
            exact absurd hfnk (by simp)

/-- C4 counterexample: for a `this` whose ancestor chain (nearest first) is
arrow function, enclosing function expression, enclosing script, the
replacer flags BOTH the function expression (index 1, the nearest non-arrow
ancestor) and the script (index 2) — the while loop has no break, so the
flag is not set on exactly the nearest non-arrow ancestor only. -/
theorem C4_this_capture_counterexample :
    thisExpression ["ArrowFunction", "FunctionExpression", "Script"] =
      ([1, 2], some "__this") ∧
    (2 : Nat) ∈
      (thisExpression ["ArrowFunction", "FunctionExpression", "Script"]).1 ∧
    (thisExpression ["ArrowFunction", "FunctionExpression", "Script"]).1 ≠
      [1] := by
  refine ⟨by decide, by decide, by decide⟩

/-- C4 (amended): when the nearest function ancestor of a `ThisExpression` is
an arrow function, the replacer rewrites the `this` text to `__this` and sets
`createThisBinding` on EVERY non-arrow function-kind ancestor above the arrow
(in particular the nearest one), not only the nearest; each flagged
function's body prefix then emits `var __this = this;` first among the
inserted statements (after the lifted temp declarations, when present). -/
theorem C4_this_capture (chain : List String) (i : Nat)
    (h : parentFunctionChain chain = some (i, "ArrowFunction")) :
    (thisExpression chain).2 = some "__this" ∧
    (∀ j, j ∈ (thisExpression chain).1 ↔
      i < j ∧ j < chain.length ∧ isFnTypeB (chain.getD j "") = true ∧
        chain.getD j "" ≠ "ArrowFunction") ∧
    (∀ (createRest : Bool) (restVar temps : String)
        (paramIns : List String), ∃ l1 l2,
      functionInsert true createRest restVar paramIns temps =
        String.intercalate " " (l1 ++ "var __this = this;" :: l2)) := by
  refine ⟨?_, ?_, ?_⟩
  · unfold thisExpression
    rw [h]
    dsimp only
    rw [if_pos rfl]
  · intro j
    unfold thisExpression
    rw [h]
    dsimp only
    rw [if_pos rfl]
    simp only
    rw [climb_mem (chain.drop (i + 1)).length (chain.drop (i + 1)) (i + 1)
      le_rfl j]
    constructor
    · rintro ⟨k, hk, hj, hfnk, hna⟩
      rw [List.length_drop] at hk
      rw [getD_drop_chain] at hfnk hna
      refine ⟨by omega, by omega, ?_, ?_⟩
      · have he : i + 1 + k = j := by omega
        rwa [he] at hfnk
      · have he : i + 1 + k = j := by omega
        rwa [he] at hna
    · rintro ⟨hij, hjlen, hfnj, hnaj⟩
      refine ⟨j - (i + 1), ?_, by omega, ?_, ?_⟩
      · rw [List.length_drop]; omega
      · rw [getD_drop_chain]
        have he : i + 1 + (j - (i + 1)) = j := by omega
        rwa [he]
      · rw [getD_drop_chain]
        have he : i + 1 + (j - (i + 1)) = j := by omega
        rwa [he]
  · intro createRest restVar temps paramIns
    by_cases ht : temps = ""
    · exact ⟨[], (if createRest then [restVar] else []) ++ paramIns,
        by simp [functionInsert, ht]⟩
    · exact ⟨[temps], (if createRest then [restVar] else []) ++ paramIns,
        by simp [functionInsert, ht]⟩

/-- Witness for C4 (amended) at the concrete chain
`[ArrowFunction, FunctionExpression, Script]`: the rewrite is `__this`, the
script ancestor at index 2 is flagged, and a flagged function's insert holds
`var __this = this;`. -/
theorem C4_this_capture_witness :
    (thisExpression ["ArrowFunction", "FunctionExpression", "Script"]).2 =
      some "__this" ∧
    ((2 : Nat) ∈
        (thisExpression ["ArrowFunction", "FunctionExpression", "Script"]).1 ↔
      0 < 2 ∧ 2 < (["ArrowFunction", "FunctionExpression", "Script"] :
          List String).length ∧
        isFnTypeB ((["ArrowFunction", "FunctionExpression", "Script"] :
          List String).getD 2 "") = true ∧
        (["ArrowFunction", "FunctionExpression", "Script"] :
          List String).getD 2 "" ≠ "ArrowFunction") ∧
    (∃ l1 l2, functionInsert true false "" [] "" =
      String.intercalate " " (l1 ++ "var __this = this;" :: l2)) :=
  ⟨(C4_this_capture ["ArrowFunction", "FunctionExpression", "Script"] 0
      (by decide)).1,
   (C4_this_capture ["ArrowFunction", "FunctionExpression", "Script"] 0
      (by decide)).2.1 2,
   (C4_this_capture ["ArrowFunction", "FunctionExpression", "Script"] 0
      (by decide)).2.2 false "" "" []⟩

theorem unaryExpr_binOps (ts ts2 : List BTok) (rhs : BExpr)
    (h : unaryExpr ts = some (rhs, ts2)) : binOps rhs = [] := by
  match ts, h with
  | .operand n :: rest, h =>
    simp only [unaryExpr, Option.some.injEq, Prod.mk.injEq] at h
    rw [← h.1]
    rfl

theorem noIn_never_consumed (fuel : Nat) :
    (∀ (lhs : BExpr) (minPrec : Nat) (ts : List BTok) (e : BExpr)
        (ts2 : List BTok), "in" ∉ binOps lhs →
      partialBinary fuel lhs minPrec true ts = some (e, ts2) →
      "in" ∉ binOps e) ∧
    (∀ (rhs : BExpr) (maxPrec : Nat) (ts : List BTok) (e : BExpr)
        (ts2 : List BTok), "in" ∉ binOps rhs →
      innerClimb fuel rhs maxPrec true ts = some (e, ts2) →
      "in" ∉ binOps e) := by
  induction fuel with
  | zero =>
    constructor
    · intro lhs minPrec ts e ts2 hlhs h
      simp only [partialBinary, Option.some.injEq, Prod.mk.injEq] at h
      rw [← h.1]; exact hlhs
    · intro rhs maxPrec ts e ts2 hrhs h
      simp only [innerClimb, Option.some.injEq, Prod.mk.injEq] at h
      rw [← h.1]; exact hrhs
  | succ fuel ih =>
    obtain ⟨ihp, ihi⟩ := ih
    constructor
    · intro lhs minPrec ts e ts2 hlhs h
      rw [partialBinary] at h
      by_cases hin : peekType ts = "in" ∧ True
      · rw [if_pos (by simpa using hin.1)] at h
        simp only [Option.some.injEq, Prod.mk.injEq] at h
        rw [← h.1]; exact hlhs
      · have hin2 : ¬(peekType ts = "in" ∧ true = true) := by simpa using hin
        rw [if_neg hin2] at h
        by_cases hp : getPrecedence (peekType ts) = 0 ∨
            getPrecedence (peekType ts) < minPrec
        · rw [if_pos hp] at h
          simp only [Option.some.injEq, Prod.mk.injEq] at h
          rw [← h.1]; exact hlhs
        · rw [if_neg hp] at h
          match ts, h with
          | .op s :: ts1, h =>
            have hs : peekType (.op s :: ts1) = s := rfl
            dsimp only at h
            rw [hs] at hin2 h
            have hsne : s ≠ "in" := by
              intro he; exact hin2 (by simp [he])
            cases hu : unaryExpr ts1 with
            | none => rw [hu] at h; simp at h
            | some p =>
              obtain ⟨rhs0, ts2x⟩ := p
              rw [hu] at h
              dsimp only at h
              cases hc : innerClimb fuel rhs0 (getPrecedence s) true ts2x with
              | none => rw [hc] at h; simp at h
              | some q =>
                obtain ⟨rhs, ts3⟩ := q
                rw [hc] at h
                have hrhs0 : binOps rhs0 = [] := unaryExpr_binOps _ _ _ hu
                have hrhs : "in" ∉ binOps rhs :=
                  ihi rhs0 (getPrecedence s) ts2x rhs ts3
                    (by rw [hrhs0]; simp) hc
                have hbin : "in" ∉ binOps (.bin (peekType (.op s :: ts1)) lhs rhs) := by
                  rw [hs]
                  simp only [binOps, List.mem_cons, List.mem_append]
                  rintro (he | hl | hr)
                  · exact hsne he.symm
                  · exact hlhs hl
                  · exact hrhs hr
                exact ihp _ minPrec ts3 e ts2 hbin h
    · intro rhs maxPrec ts e ts2 hrhs h
      rw [innerClimb] at h
      by_cases hp : getPrecedence (peekType ts) = 0 ∨
          getPrecedence (peekType ts) ≤ maxPrec
      · rw [if_pos hp] at h
        simp only [Option.some.injEq, Prod.mk.injEq] at h
        rw [← h.1]; exact hrhs
      · rw [if_neg hp] at h
        cases hq : partialBinary fuel rhs (getPrecedence (peekType ts)) true ts with
        | none => rw [hq] at h; simp at h
        | some p =>
          obtain ⟨rhs2, ts2x⟩ := p
          rw [hq] at h
          have h2 : "in" ∉ binOps rhs2 :=
            ihp rhs (getPrecedence (peekType ts)) ts rhs2 ts2x hrhs hq
          exact ihi rhs2 maxPrec ts2x e ts2 h2 h

/-- C6: the binary-expression loop realises exactly the claimed precedence
table (`||` 1, `&&` 2, `|` 3, `^` 4, `&` 5, equality 6, relational with `in`
and `instanceof` 7, shift 8, additive 9, multiplicative 10), binds
tighter-precedence operators more closely (multiplication under addition on
either side), refuses to consume a leading `in` under the `noIn` flag, and
under `noIn` never builds an `in` operator into the result at all. -/
theorem C6_precedence_loop :
    (getPrecedence "||" = 1 ∧ getPrecedence "&&" = 2 ∧
     getPrecedence "|" = 3 ∧ getPrecedence "^" = 4 ∧
     getPrecedence "&" = 5 ∧
     getPrecedence "==" = 6 ∧ getPrecedence "!=" = 6 ∧
     getPrecedence "===" = 6 ∧ getPrecedence "!==" = 6 ∧
     getPrecedence "<=" = 7 ∧ getPrecedence ">=" = 7 ∧
     getPrecedence ">" = 7 ∧ getPrecedence "<" = 7 ∧
     getPrecedence "in" = 7 ∧ getPrecedence "instanceof" = 7 ∧
     getPrecedence ">>>" = 8 ∧ getPrecedence ">>" = 8 ∧
     getPrecedence "<<" = 8 ∧
     getPrecedence "+" = 9 ∧ getPrecedence "-" = 9 ∧
     getPrecedence "*" = 10 ∧ getPrecedence "/" = 10 ∧
     getPrecedence "%" = 10 ∧ getPrecedence "NUMBER" = 0 ∧
     getPrecedence "EOF" = 0) ∧
    (binaryExpr false [.operand 1, .op "+", .operand 2, .op "*", .operand 3] =
       some (.bin "+" (.atom 1) (.bin "*" (.atom 2) (.atom 3)), []) ∧
     binaryExpr false [.operand 1, .op "*", .operand 2, .op "+", .operand 3] =
       some (.bin "+" (.bin "*" (.atom 1) (.atom 2)) (.atom 3), [])) ∧
    (∀ (fuel minPrec : Nat) (lhs : BExpr) (rest : List BTok),
      partialBinary (fuel + 1) lhs minPrec true (.op "in" :: rest) =
        some (lhs, .op "in" :: rest)) ∧
    (∀ (fuel minPrec : Nat) (lhs e : BExpr) (ts ts2 : List BTok),
      "in" ∉ binOps lhs →
      partialBinary fuel lhs minPrec true ts = some (e, ts2) →
      "in" ∉ binOps e) := by
  refine ⟨by decide, ⟨by decide, by decide⟩, ?_, ?_⟩
  · intro fuel minPrec lhs rest
    rw [partialBinary]
    rw [if_pos (by exact ⟨rfl, rfl⟩)]
  · intro fuel minPrec lhs e ts ts2 hlhs h
    exact (noIn_never_consumed fuel).1 lhs minPrec ts e ts2 hlhs h

/-- Witness for C6: the universally quantified parts applied at concrete
inputs — `a == b in c` under `noIn` leaves the `in` token unconsumed, and a
result parsed under `noIn` from an `in`-free left side contains no `in`. -/
theorem C6_precedence_loop_witness :
    partialBinary (3 + 1) (.atom 0) 0 true [.op "in", .operand 1] =
      some (.atom 0, [.op "in", .operand 1]) ∧
    "in" ∉ binOps (BExpr.bin "==" (.atom 0) (.atom 1)) := by
  constructor
  · exact C6_precedence_loop.2.2.1 3 0 (.atom 0) [.operand 1]
  · have := C6_precedence_loop.2.2.2 5 0 (.atom 0)
      (.bin "==" (.atom 0) (.atom 1))
      [.op "==", .operand 1, .op "in", .operand 2] [.op "in", .operand 2]
      (by decide) (by decide)
    exact this

theorem scanStringLoop_range (delim : Char) (fuel : Nat) (st : ScanState)
    (val : List Char) :
    (scanStringLoop delim fuel st val).2 = "STRING" ∨
      (scanStringLoop delim fuel st val).2 = "ILLEGAL" := by
  induction fuel generalizing st val with
  | zero => right; rfl
  | succ fuel ih =>
    rw [scanStringLoop]
    cases st.input[st.offset]? with
    | none => right; rfl
    | some chr =>
      dsimp only
      by_cases h1 : chr = delim
      · rw [if_pos h1]; left; rfl
      · rw [if_neg h1]
        by_cases h2 : chr = '\r' ∨ chr = '\n' ∨ chr = lsChar ∨ chr = psChar
        · rw [if_pos h2]; right; rfl
        · rw [if_neg h2]
          by_cases h3 : chr = Char.ofNat 92
          · rw [if_pos h3]
            cases hesc : (readStringEscape st).2 with
            | nullEsc => dsimp only; right; rfl
            | undef => dsimp only; exact ih _ _
            | str sv => dsimp only; exact ih _ _
          · rw [if_neg h3]
            exact ih _ _

/-- `Scanner.Whitespace` preserves the input and strictly advances the
cursor (it produces no token, so `next` rescans). -/
theorem scanWhitespace_spec (st : ScanState) :
    (scanWhitespace st).input = st.input ∧
      st.offset < (scanWhitespace st).offset :=
  ⟨rfl, Nat.lt_of_lt_of_le (Nat.lt_succ_self _) (Nat.le_add_right _ _)⟩

/-- `Scanner.Newline` preserves the input and strictly advances the
cursor. -/
theorem scanNewline_spec (code : Nat) (st : ScanState) :
    (scanNewline code st).input = st.input ∧
      st.offset < (scanNewline code st).offset := by
  by_cases h : code = 13 ∧ st.input[st.offset + 1]? = some '\n' <;>
    simp [scanNewline, h] <;> omega

/-- `Scanner.UnicodeWhitespace` preserves the input and strictly advances
the cursor. -/
theorem scanUnicodeWhitespace_spec (uniWs : Char → Bool) (st : ScanState) :
    (scanUnicodeWhitespace uniWs st).input = st.input ∧
      st.offset < (scanUnicodeWhitespace uniWs st).offset :=
  ⟨rfl, Nat.lt_of_lt_of_le (Nat.lt_succ_self _) (Nat.le_add_right _ _)⟩

/-- Every branch of `Scanner.Start` either produces a token or — for the
whitespace and newline scans — produces none while strictly advancing the
cursor over an unchanged input. -/
theorem scanStart_cases (u1 u2 u3 : Char → Bool) (ctx : String)
    (st : ScanState) :
    ((scanStart u1 u2 u3 ctx st).2).isSome = true ∨
      ((scanStart u1 u2 u3 ctx st).1.input = st.input ∧
        st.offset < (scanStart u1 u2 u3 ctx st).1.offset ∧
        (scanStart u1 u2 u3 ctx st).2 = none) := by
  unfold scanStart
  cases hc : st.input[st.offset]? with
  | none =>
    dsimp only
    by_cases hn : ctx = "name"
    · rw [if_pos hn]; exact Or.inl rfl
    · rw [if_neg hn]; exact Or.inl rfl
  | some c =>
    dsimp only
    by_cases h5 : charCat c.toNat = 5
    · rw [if_pos h5]; exact Or.inl rfl
    rw [if_neg h5]
    by_cases h1 : charCat c.toNat = 1
    · rw [if_pos h1]
      exact Or.inr ⟨(scanWhitespace_spec st).1, (scanWhitespace_spec st).2,
        rfl⟩
    rw [if_neg h1]
    by_cases h8 : charCat c.toNat = 8
    · rw [if_pos h8]
      by_cases hn : ctx = "name"
      · rw [if_pos hn]; exact Or.inl rfl
      · rw [if_neg hn]; exact Or.inl rfl
    rw [if_neg h8]
    by_cases h12 : charCat c.toNat = 12
    · rw [if_pos h12]
      by_cases ht : ctx = "template"
      · rw [if_pos ht]; exact Or.inl rfl
      · rw [if_neg ht]; exact Or.inl rfl
    rw [if_neg h12]
    by_cases h4 : charCat c.toNat = 4
    · rw [if_pos h4]; exact Or.inl rfl
    rw [if_neg h4]
    by_cases h2 : charCat c.toNat = 2
    · rw [if_pos h2]
      exact Or.inr ⟨(scanNewline_spec c.toNat st).1,
        (scanNewline_spec c.toNat st).2, rfl⟩
    rw [if_neg h2]
    by_cases h3 : charCat c.toNat = 3
    · rw [if_pos h3]; exact Or.inl rfl
    rw [if_neg h3]
    by_cases h7 : charCat c.toNat = 7
    · rw [if_pos h7]; exact Or.inl rfl
    rw [if_neg h7]
    by_cases h6 : charCat c.toNat = 6
    · rw [if_pos h6]; exact Or.inl rfl
    rw [if_neg h6]
    by_cases h9 : charCat c.toNat = 9
    · rw [if_pos h9]
      cases st.input[st.offset + 1]? with
      | none => exact Or.inl rfl
      | some n =>
        dsimp only
        split_ifs <;> exact Or.inl rfl
    rw [if_neg h9]
    by_cases h10 : charCat c.toNat = 10
    · rw [if_pos h10]
      cases st.input[st.offset + 1]? with
      | none => exact Or.inl rfl
      | some n =>
        dsimp only
        split_ifs <;> exact Or.inl rfl
    rw [if_neg h10]
    by_cases h11 : charCat c.toNat = 11
    · rw [if_pos h11]
      cases st.input[st.offset + 1]? with
      | none =>
        dsimp only
        split_ifs <;> exact Or.inl rfl
      | some n =>
        dsimp only
        split_ifs <;> exact Or.inl rfl
    rw [if_neg h11]
    by_cases hnl : isNewlineCharB c = true
    · rw [if_pos hnl]
      exact Or.inr ⟨(scanNewline_spec c.toNat st).1,
        (scanNewline_spec c.toNat st).2, rfl⟩
    rw [if_neg hnl]
    by_cases hws : u3 c = true
    · rw [if_pos hws]
      exact Or.inr ⟨(scanUnicodeWhitespace_spec u3 st).1,
        (scanUnicodeWhitespace_spec u3 st).2, rfl⟩
    rw [if_neg hws]
    by_cases hid : u1 c = true
    · rw [if_pos hid]
      by_cases hn : ctx = "name"
      · rw [if_pos hn]; exact Or.inl rfl
      · rw [if_neg hn]; exact Or.inl rfl
    · rw [if_neg hid]; exact Or.inl rfl

/-- The `while (type === null)` loop of `Scanner.next` always produces a
token when given fuel above the remaining input length: every `null`
iteration strictly advances the cursor, and the loop returns `EOF` at the
end of the input. -/
theorem scanNextAux_total (u1 u2 u3 : Char → Bool) (ctx : String) :
    ∀ (fuel : Nat) (st : ScanState),
      st.input.length - st.offset < fuel →
        ((scanNextAux u1 u2 u3 ctx fuel st).2).isSome = true := by
  intro fuel
  induction fuel with
  | zero => intro st h; omega
  | succ fuel ih =>
    intro st h
    rw [scanNextAux]
    split
    · rfl
    · split
      · rfl
      · rename_i st2 heq
        rcases scanStart_cases u1 u2 u3 ctx st with hty | ⟨hin, hoff, _⟩
        · rw [heq] at hty
          simp at hty
        · rw [heq] at hin hoff
          dsimp only at hin hoff
          apply ih
          rw [hin]
          omega

/-- The `Scanner.Template` loop only ever yields `TEMPLATE` or `ILLEGAL`. -/
theorem scanTemplateLoop_range (fuel : Nat) (st : ScanState)
    (val : List Char) :
    (scanTemplateLoop fuel st val).2.1 = "TEMPLATE" ∨
      (scanTemplateLoop fuel st val).2.1 = "ILLEGAL" := by
  induction fuel generalizing st val with
  | zero => right; rfl
  | succ fuel ih =>
    rw [scanTemplateLoop]
    cases st.input[st.offset]? with
    | none => right; rfl
    | some chr =>
      dsimp only
      by_cases h1 : chr = Char.ofNat 96
      · rw [if_pos h1]; left; rfl
      · rw [if_neg h1]
        by_cases h2 : chr = '$' ∧
          st.input[st.offset + 1]? = some (Char.ofNat 123)
        · rw [if_pos h2]; left; rfl
        · rw [if_neg h2]
          by_cases h3 : chr = Char.ofNat 92
          · rw [if_pos h3]
            cases hesc : (readStringEscape st).2 with
            | str s =>
              dsimp only
              by_cases h4 : s = []
              · rw [if_pos h4]; right; rfl
              · rw [if_neg h4]; exact ih _ _
            | nullEsc => dsimp only; right; rfl
            | undef => dsimp only; right; rfl
          · rw [if_neg h3]; exact ih _ _

/-- The `Scanner.BlockComment` loop only ever yields `COMMENT` or
`ILLEGAL`. -/
theorem blockCommentLoop_range (start fuel : Nat) (st : ScanState) :
    (blockCommentLoop start fuel st).2 = "COMMENT" ∨
      (blockCommentLoop start fuel st).2 = "ILLEGAL" := by
  induction fuel generalizing st with
  | zero => right; rfl
  | succ fuel ih =>
    rw [blockCommentLoop]
    cases findBcMatch st.input (st.input.length + 1) st.offset with
    | none => right; rfl
    | some m =>
      rcases m with ⟨idx, len, isClose⟩
      dsimp only
      split
      · left; rfl
      · exact ih _

/-- `Scanner.RegularExpression` only ever yields `REGEX` or `ILLEGAL`. -/
theorem scanRegularExpression_range (u : Char → Bool) (st : ScanState) :
    (scanRegularExpression u st).2 = "REGEX" ∨
      (scanRegularExpression u st).2 = "ILLEGAL" := by
  unfold scanRegularExpression
  dsimp only
  split
  · right; rfl
  · left; rfl

/-- C8: the scanner never throws — the embedded `Scanner.next` produces a
token for every input, scan context and cursor state (the rescan loop
terminates through `Start`'s dispatch, so no context can hang or fail it);
each cited scanner is a total function into its success type or `ILLEGAL`
(`Scanner.String`, `Scanner.Template`, `Scanner.RegularExpression`,
`Scanner.BlockComment`); in strict mode `LegacyOctalNumber` always yields
`ILLEGAL` carrying the octal error message; and the concrete malformed
inputs — an unterminated string, a newline inside a string, a malformed
`\x` escape, an unterminated template, an unterminated regular expression,
a newline inside a regular expression, and an unterminated block comment —
all produce `ILLEGAL` (also through the `next` dispatch), while well-formed
literals still scan to their token types. -/
theorem C8_scanner_never_throws :
    (∀ (u1 u2 u3 : Char → Bool) (ctx : String) (st : ScanState),
      ((scanNext u1 u2 u3 ctx st).2).isSome = true) ∧
    (∀ st : ScanState, (scanString st).2 = "STRING" ∨
      (scanString st).2 = "ILLEGAL") ∧
    (∀ st : ScanState, (scanTemplate st).2.1 = "TEMPLATE" ∨
      (scanTemplate st).2.1 = "ILLEGAL") ∧
    (∀ (u : Char → Bool) (st : ScanState),
      (scanRegularExpression u st).2 = "REGEX" ∨
        (scanRegularExpression u st).2 = "ILLEGAL") ∧
    (∀ st : ScanState, (scanBlockComment st).2 = "COMMENT" ∨
      (scanBlockComment st).2 = "ILLEGAL") ∧
    (∀ (uniIdStart : Char → Bool) (st : ScanState), st.strict = true →
      (legacyOctalNumber uniIdStart st).2 = "ILLEGAL" ∧
      (legacyOctalNumber uniIdStart st).1.error =
        some "Octal literals are not allowed in strict mode") ∧
    ((scanString ⟨['"', 'a', 'b'], 0, false, [], 0, [-1], none⟩).2 =
        "ILLEGAL" ∧
     (scanString ⟨['"', 'a', '\n', 'b', '"'], 0, false, [], 0, [-1],
        none⟩).2 = "ILLEGAL" ∧
     (scanString ⟨['"', Char.ofNat 92, 'x', '1', 'g', '"'], 0, false, [], 0,
        [-1], none⟩).2 = "ILLEGAL" ∧
     (scanString ⟨['"', 'a', Char.ofNat 92, 'n', '"'], 0, false, [], 0,
        [-1], none⟩).2 = "STRING" ∧
     (scanString ⟨['"', 'a', Char.ofNat 92, 'n', '"'], 0, false, [], 0,
        [-1], none⟩).1.value = ['a', '\n'] ∧
     (scanTemplate ⟨[Char.ofNat 96, 'a', 'b'], 0, false, [], 0, [-1],
        none⟩).2.1 = "ILLEGAL" ∧
     (scanTemplate ⟨[Char.ofNat 96, 'a', Char.ofNat 96], 0, false, [], 0,
        [-1], none⟩).2.1 = "TEMPLATE" ∧
     (scanRegularExpression (fun _ => false)
        ⟨['/', 'a', 'b'], 0, false, [], 0, [-1], none⟩).2 = "ILLEGAL" ∧
     (scanRegularExpression (fun _ => false)
        ⟨['/', 'a', '\n', 'b', '/'], 0, false, [], 0, [-1], none⟩).2 =
       "ILLEGAL" ∧
     (scanRegularExpression (fun _ => false)
        ⟨['/', 'a', '/', 'g'], 0, false, [], 0, [-1], none⟩).2 = "REGEX" ∧
     (scanBlockComment ⟨['/', '*', 'a'], 0, false, [], 0, [-1], none⟩).2 =
        "ILLEGAL" ∧
     (scanBlockComment ⟨['/', '*', 'a', '*', '/'], 0, false, [], 0, [-1],
        none⟩).2 = "COMMENT" ∧
     (scanNext (fun _ => false) (fun _ => false) (fun _ => false) ""
        ⟨['/', '*', 'a'], 0, false, [], 0, [-1], none⟩).2 =
       some "ILLEGAL") := by
  refine ⟨?_, ?_, ?_, ?_, ?_, ?_, by decide⟩
  · intro u1 u2 u3 ctx st
    unfold scanNext
    exact scanNextAux_total u1 u2 u3 ctx _ _
      (Nat.lt_succ_of_le (Nat.sub_le _ _))
  · intro st
    unfold scanString
    exact scanStringLoop_range _ _ _ _
  · intro st
    unfold scanTemplate
    exact scanTemplateLoop_range _ _ _
  · intro u st
    exact scanRegularExpression_range u st
  · intro st
    unfold scanBlockComment
    exact blockCommentLoop_range _ _ _
  · intro uniIdStart st hstrict
    unfold legacyOctalNumber
    rw [hstrict]
    simp only [if_true]
    constructor
    · rfl
    · rfl

/-- Witness for C8: the universally quantified conjuncts applied at
concrete scanner states — the token loop at an empty-input state, the
string-range property at a quote-only state, and a strict state at `01`
for the octal error. -/
theorem C8_scanner_never_throws_witness :
    ((scanNext (fun _ => false) (fun _ => false) (fun _ => false) "div"
        ⟨[], 0, false, [], 0, [-1], none⟩).2).isSome = true ∧
    ((scanString ⟨['"'], 0, true, [], 0, [-1], none⟩).2 = "STRING" ∨
      (scanString ⟨['"'], 0, true, [], 0, [-1], none⟩).2 = "ILLEGAL") ∧
    (legacyOctalNumber (fun _ => false)
        ⟨['0', '1'], 0, true, [], 0, [-1], none⟩).2 = "ILLEGAL" ∧
    (legacyOctalNumber (fun _ => false)
        ⟨['0', '1'], 0, true, [], 0, [-1], none⟩).1.error =
      some "Octal literals are not allowed in strict mode" :=
  ⟨C8_scanner_never_throws.1 (fun _ => false) (fun _ => false)
      (fun _ => false) "div" ⟨[], 0, false, [], 0, [-1], none⟩,
   C8_scanner_never_throws.2.1 ⟨['"'], 0, true, [], 0, [-1], none⟩,
   (C8_scanner_never_throws.2.2.2.2.2.1 (fun _ => false)
      ⟨['0', '1'], 0, true, [], 0, [-1], none⟩ rfl).1,
   (C8_scanner_never_throws.2.2.2.2.2.1 (fun _ => false)
      ⟨['0', '1'], 0, true, [], 0, [-1], none⟩ rfl).2⟩

theorem countNewlines_eq_count (l : List Char) (h : crFree l = true) :
    countNewlines l = l.count '\n' := by
  induction l with
  | nil => simp [countNewlines_nil]
  | cons c t ih =>
    have hc : c ≠ '\r' := by
      have := (List.all_eq_true.mp h) c (by simp)
      simpa using this
    have ht : crFree t = true := by
      apply List.all_eq_true.mpr
      intro x hx
      exact (List.all_eq_true.mp h) x (by simp [hx])
    rw [countNewlines_cons_of_ne_cr _ _ hc, ih ht, List.count_cons]
    by_cases hn : c = '\n' <;> simp [hn] <;> omega

theorem crFree_append (a b : List Char) (ha : crFree a = true)
    (hb : crFree b = true) : crFree (a ++ b) = true := by
  simp only [crFree, List.all_append, Bool.and_eq_true]
  exact ⟨ha, hb⟩

theorem crFree_sublistish (l m : List Char) (h : crFree l = true)
    (hsub : ∀ x, x ∈ m → x ∈ l) : crFree m = true := by
  apply List.all_eq_true.mpr
  intro x hx
  exact (List.all_eq_true.mp h) x (hsub x hx)

theorem crFree_slice (input : List Char) (a b : Nat)
    (h : crFree input = true) : crFree (slice input a b) = true := by
  apply crFree_sublistish input _ h
  intro x hx
  unfold slice at hx
  exact List.mem_of_mem_drop (List.mem_of_mem_take hx)

theorem crFree_replicate_lf (k : Nat) :
    crFree (List.replicate k '\n') = true := by
  apply List.all_eq_true.mpr
  intro x hx
  have := List.eq_of_mem_replicate hx
  subst this
  decide

theorem crFree_preserveNewlines (t : List Char) (h : Int)
    (hcr : crFree t = true) : crFree (preserveNewlines t h) = true := by
  unfold preserveNewlines
  by_cases hc : 0 < h ∧ ((countNewlines t : Nat) : Int) < h
  · rw [if_pos hc]
    exact crFree_append _ _ hcr (crFree_replicate_lf _)
  · rw [if_neg hc]; exact hcr

theorem lineBreaks_cons_of_ne_cr (c : Char) (t : List Char) (i : Nat)
    (h : c ≠ '\r') :
    lineBreaks (c :: t) i =
      if c = '\n' ∨ c = lsChar ∨ c = psChar then i :: lineBreaks t (i + 1)
      else lineBreaks t (i + 1) := by
  rw [lineBreaks.eq_def]
  dsimp only
  rw [if_neg h]

theorem lineBreaks_ge (l : List Char) (hcr : crFree l = true) (i : Nat) :
    ∀ b ∈ lineBreaks l i, i ≤ b := by
  induction l generalizing i with
  | nil => intro b hb; simp [lineBreaks] at hb
  | cons c t ih =>
    intro b hb
    have hc : c ≠ '\r' := by
      have := (List.all_eq_true.mp hcr) c (by simp)
      simpa using this
    have ht : crFree t = true := by
      apply List.all_eq_true.mpr
      intro x hx
      exact (List.all_eq_true.mp hcr) x (by simp [hx])
    rw [lineBreaks_cons_of_ne_cr _ _ _ hc] at hb
    by_cases hn : c = '\n' ∨ c = lsChar ∨ c = psChar
    · rw [if_pos hn] at hb
      rcases List.mem_cons.mp hb with hb | hb
      · omega
      · have := ih ht (i + 1) b hb; omega
    · rw [if_neg hn] at hb
      have := ih ht (i + 1) b hb; omega

theorem lineBreaks_pairwise (l : List Char) (hcr : crFree l = true) (i : Nat) :
    List.Pairwise (· < ·) (lineBreaks l i) := by
  induction l generalizing i with
  | nil => simp [lineBreaks]
  | cons c t ih =>
    have hc : c ≠ '\r' := by
      have := (List.all_eq_true.mp hcr) c (by simp)
      simpa using this
    have ht : crFree t = true := by
      apply List.all_eq_true.mpr
      intro x hx
      exact (List.all_eq_true.mp hcr) x (by simp [hx])
    rw [lineBreaks_cons_of_ne_cr _ _ _ hc]
    by_cases hn : c = '\n' ∨ c = lsChar ∨ c = psChar
    · rw [if_pos hn]
      refine List.pairwise_cons.mpr ⟨?_, ih ht (i + 1)⟩
      intro b hb
      have := lineBreaks_ge t ht (i + 1) b hb
      omega
    · rw [if_neg hn]; exact ih ht (i + 1)

theorem lineBreaks_filter_count (l : List Char) (hcr : crFree l = true)
    (hls : lsFree l = true) (i v : Nat) :
    ((lineBreaks l i).filter (fun b => decide (b < i + v))).length =
      (l.take v).count '\n' := by
  induction l generalizing i v with
  | nil => simp [lineBreaks]
  | cons c t ih =>
    have hc : c ≠ '\r' := by
      have := (List.all_eq_true.mp hcr) c (by simp)
      simpa using this
    have hcls : c ≠ lsChar ∧ c ≠ psChar := by
      have := (List.all_eq_true.mp hls) c (by simp)
      simpa using this
    have ht : crFree t = true := by
      apply List.all_eq_true.mpr
      intro x hx
      exact (List.all_eq_true.mp hcr) x (by simp [hx])
    have htls : lsFree t = true := by
      apply List.all_eq_true.mpr
      intro x hx
      exact (List.all_eq_true.mp hls) x (by simp [hx])
    rw [lineBreaks_cons_of_ne_cr _ _ _ hc]
    by_cases hn : c = '\n'
    · rw [if_pos (by left; exact hn)]
      cases v with
      | zero =>
        simp only [List.take_zero, List.count_nil]
        rw [List.filter_cons]
        rw [if_neg (by simp)]
        have hz : ∀ b ∈ lineBreaks t (i + 1), ¬(b < i + 0) := by
          intro b hb
          have := lineBreaks_ge t ht (i + 1) b hb
          omega
        rw [List.filter_eq_nil_iff.mpr (by intro b hb; simpa using hz b hb)]
        rfl
      | succ w =>
        rw [List.take_succ_cons, List.count_cons]
        rw [List.filter_cons, if_pos (by simp)]
        have harith : i + (w + 1) = (i + 1) + w := by omega
        simp only [List.length_cons, harith, ih ht htls (i + 1) w, hn]
        simp
    · have hcond : ¬(c = '\n' ∨ c = lsChar ∨ c = psChar) := by
        rintro (h1 | h2 | h3)
        · exact hn h1
        · exact hcls.1 h2
        · exact hcls.2 h3
      rw [if_neg hcond]
      cases v with
      | zero =>
        simp only [List.take_zero, List.count_nil]
        have hz : ∀ b ∈ lineBreaks t (i + 1), ¬(b < i + 0) := by
          intro b hb
          have := lineBreaks_ge t ht (i + 1) b hb
          omega
        rw [List.filter_eq_nil_iff.mpr (by intro b hb; simpa using hz b hb)]
        rfl
      | succ w =>
        rw [List.take_succ_cons, List.count_cons]
        have harith : i + (w + 1) = (i + 1) + w := by omega
        simp only [harith, ih ht htls (i + 1) w]
        simp [hn]

theorem getD_eq_getElem_int (a : List Int) (i : Nat) (h : i < a.length) :
    a.getD i 0 = a[i] := by
  rw [List.getD_eq_getElem?_getD, List.getElem?_eq_getElem h]
  rfl

theorem sorted_getD_lt (a : List Int) (h : List.Pairwise (· < ·) a)
    (i j : Nat) (hij : i < j) (hj : j < a.length) :
    a.getD i 0 < a.getD j 0 := by
  have hi : i < a.length := by omega
  rw [getD_eq_getElem_int a i hi, getD_eq_getElem_int a j hj]
  exact List.pairwise_iff_getElem.mp h i j hi hj hij

theorem countP_eq_of_bounds (a : List Int) (v : Int) (k : Nat)
    (hk : k ≤ a.length)
    (hlo : ∀ i, i < k → a.getD i 0 < v)
    (hhi : ∀ i, k ≤ i → i < a.length → ¬(a.getD i 0 < v)) :
    a.countP (fun x => decide (x < v)) = k := by
  induction a generalizing k with
  | nil =>
    simp only [List.length_nil, Nat.le_zero] at hk
    subst hk
    rfl
  | cons x t ih =>
    cases k with
    | zero =>
      have hx : ¬(x < v) := by
        have := hhi 0 (by omega) (by simp)
        simpa using this
      rw [List.countP_cons]
      rw [if_neg (by simpa using hx)]
      simp only [Nat.add_zero]
      apply List.countP_eq_zero.mpr
      intro b hb
      obtain ⟨i, hi, hbi⟩ := List.getElem_of_mem hb
      have := hhi (i + 1) (by omega) (by simp; omega)
      rw [List.getD_cons_succ, getD_eq_getElem_int t i hi, hbi] at this
      simpa using this
    | succ m =>
      have hx : x < v := by
        have := hlo 0 (by omega)
        simpa using this
      rw [List.countP_cons, if_pos (by simpa using hx)]
      have hrec : t.countP (fun y => decide (y < v)) = m := by
        apply ih m (by simp at hk; omega)
        · intro i hi
          have := hlo (i + 1) (by omega)
          rwa [List.getD_cons_succ] at this
        · intro i hi hilen
          have := hhi (i + 1) (by omega) (by simp; omega)
          rwa [List.getD_cons_succ] at this
      omega

theorem bsAux_eq_countP (a : List Int) (v : Int) (fuel : Nat) :
    ∀ (left rightP1 : Nat),
      List.Pairwise (· < ·) a →
      rightP1 ≤ a.length → left ≤ rightP1 → rightP1 - left < fuel →
      (∀ i, i < left → a.getD i 0 < v) →
      (∀ i, rightP1 ≤ i → i < a.length → v < a.getD i 0) →
      bsAux a v fuel left rightP1 = a.countP (fun x => decide (x < v)) := by
  induction fuel with
  | zero => intro left rightP1 _ _ _ hf _ _; omega
  | succ fuel ih =>
    intro left rightP1 hsort hr hlr hf hlo hhi
    rw [bsAux]
    by_cases hlt : left < rightP1
    · rw [if_pos hlt]
      have hmid_ge : left ≤ (left + rightP1 - 1) / 2 := by omega
      have hmid_lt : (left + rightP1 - 1) / 2 < rightP1 := by omega
      by_cases hgt : v > a.getD ((left + rightP1 - 1) / 2) 0
      · rw [if_pos hgt]
        apply ih ((left + rightP1 - 1) / 2 + 1) rightP1 hsort hr
          (by omega) (by omega)
        · intro i hi
          by_cases him : i = (left + rightP1 - 1) / 2
          · subst him; omega
          · by_cases hil : i < left
            · exact hlo i hil
            · exact lt_trans
                (sorted_getD_lt a hsort i ((left + rightP1 - 1) / 2)
                  (by omega) (by omega)) hgt
        · exact hhi
      · rw [if_neg hgt]
        by_cases hlt2 : v < a.getD ((left + rightP1 - 1) / 2) 0
        · rw [if_pos hlt2]
          apply ih left ((left + rightP1 - 1) / 2) hsort (by omega)
            (by omega) (by omega) hlo
          intro i him hilen
          by_cases heqm : i = (left + rightP1 - 1) / 2
          · subst heqm; exact hlt2
          · exact lt_trans hlt2
              (sorted_getD_lt a hsort ((left + rightP1 - 1) / 2) i
                (by omega) hilen)
        · rw [if_neg hlt2]
          have heqv : a.getD ((left + rightP1 - 1) / 2) 0 = v := by omega
          symm
          apply countP_eq_of_bounds a v ((left + rightP1 - 1) / 2) (by omega)
          · intro i hi
            calc a.getD i 0
                < a.getD ((left + rightP1 - 1) / 2) 0 :=
                  sorted_getD_lt a hsort i _ hi (by omega)
              _ = v := heqv
          · intro i him hilen
            by_cases heqm : i = (left + rightP1 - 1) / 2
            · subst heqm; omega
            · have := sorted_getD_lt a hsort ((left + rightP1 - 1) / 2) i
                (by omega) hilen
              omega
    · rw [if_neg hlt]
      have hleq : left = rightP1 := by omega
      subst hleq
      symm
      apply countP_eq_of_bounds a v left (by omega) hlo
      intro i hli hilen
      have := hhi i hli hilen
      omega

theorem binarySearch_eq (a : List Int) (v : Int)
    (hsort : List.Pairwise (· < ·) a) :
    binarySearch a v = a.countP (fun x => decide (x < v)) := by
  unfold binarySearch
  apply bsAux_eq_countP a v (a.length + 1) 0 a.length hsort le_rfl
    (by omega) (by omega)
  · intro i hi; omega
  · intro i h1 h2; omega

theorem idealLines_pairwise (input : List Char)
    (hcr : crFree input = true) :
    List.Pairwise (· < ·) (idealLines input) := by
  unfold idealLines
  refine List.pairwise_cons.mpr ⟨?_, ?_⟩
  · intro b hb
    obtain ⟨n, hn, rfl⟩ := List.mem_map.mp hb
    have hnn : (0 : Int) ≤ Int.ofNat n := Int.ofNat_nonneg n
    omega
  · exact List.pairwise_map.mpr
      ((lineBreaks_pairwise input hcr 0).imp (fun hab => Int.ofNat_lt.mpr hab))

theorem countP_int_cast (l : List Nat) (p : Nat) :
    List.countP (fun x : Int => decide (x < (p : Int)))
        (l.map Int.ofNat) =
      (l.filter (fun b => decide (b < 0 + p))).length := by
  induction l with
  | nil => rfl
  | cons b t ih =>
    simp only [List.map_cons, List.countP_cons, List.filter_cons]
    by_cases hb : b < p
    · have h1 : (decide (Int.ofNat b < (p : Int))) = true := by
        simp only [decide_eq_true_eq]
        exact Int.ofNat_lt.mpr hb
      have h2 : (decide (b < 0 + p)) = true := by
        simp only [decide_eq_true_eq]
        omega
      rw [h1, h2]
      simp [ih]
    · have h1 : (decide (Int.ofNat b < (p : Int))) = false := by
        simp only [decide_eq_false_iff_not]
        intro hlt
        exact hb (by exact_mod_cast Int.ofNat_lt.mp hlt)
      have h2 : (decide (b < 0 + p)) = false := by
        simp only [decide_eq_false_iff_not]
        omega
      rw [h1, h2]
      simp [ih]

theorem locationLine_eq (input : List Char) (hcr : crFree input = true)
    (hls : lsFree input = true) (p : Nat) :
    locationLine (idealLines input) (p : Int) =
      1 + (input.take p).count '\n' := by
  unfold locationLine
  rw [binarySearch_eq _ _ (idealLines_pairwise input hcr)]
  unfold idealLines
  rw [List.countP_cons, if_pos (by simp only [decide_eq_true_eq]; omega),
    countP_int_cast, lineBreaks_filter_count input hcr hls 0 p]
  omega

theorem getD_eq_getElem_char (a : List Char) (i : Nat) (h : i < a.length) :
    a.getD i ' ' = a[i] := by
  rw [List.getD_eq_getElem?_getD, List.getElem?_eq_getElem h]
  rfl

theorem count_take_split (input : List Char) (s e : Nat) (hse : s ≤ e) :
    (input.take e).count '\n' =
      (input.take s).count '\n' + (slice input s e).count '\n' := by
  have he : e = s + (e - s) := by omega
  conv_lhs => rw [he, List.take_add]
  rw [List.count_append]
  rfl

theorem count_take_last (input : List Char) (e : Nat) (he1 : 1 ≤ e)
    (he2 : e ≤ input.length) (hlast : input.getD (e - 1) ' ' ≠ '\n') :
    (input.take e).count '\n' = (input.take (e - 1)).count '\n' := by
  have hidx : e - 1 < input.length := by omega
  have he : e = (e - 1) + 1 := by omega
  rw [getD_eq_getElem_char input (e - 1) hidx] at hlast
  conv_lhs => rw [he, List.take_succ, List.getElem?_eq_getElem hidx]
  rw [List.count_append]
  simp only [Option.toList_some]
  have h0 : List.count '\n' [input[e - 1]] = 0 := by
    simp [List.count_cons, hlast]
  omega

theorem height_eq_slice (input : List Char) (hcr : crFree input = true)
    (hls : lsFree input = true) (s e : Nat) (hse : s < e)
    (he : e ≤ input.length) (hlast : input.getD (e - 1) ' ' ≠ '\n') :
    (locationLine (idealLines input) ((e : Int) - 1) : Int) -
        (locationLine (idealLines input) (s : Int) : Int) =
      (countNewlines (slice input s e) : Int) := by
  have hcast : ((e : Int) - 1) = (((e - 1 : Nat) : Nat) : Int) := by omega
  rw [hcast, locationLine_eq input hcr hls (e - 1),
    locationLine_eq input hcr hls s]
  have h1 := count_take_split input s e (by omega)
  have h2 := count_take_split input s (e - 1) (by omega)
  have h3 := count_take_last input e (by omega) he hlast
  have h4 : countNewlines (slice input s e) = (slice input s e).count '\n' :=
    countNewlines_eq_count _ (crFree_slice input s e hcr)
  omega

theorem stringifyFrom_count (input : List Char) (hcr : crFree input = true)
    (kids : List (Nat × Nat × List Char)) :
    ∀ (o e : Nat), spanChain o kids e = true →
      (∀ x ∈ kids, countNewlines (slice input x.1 x.2.1) ≤
          countNewlines x.2.2 ∧ crFree x.2.2 = true) →
      countNewlines (slice input o e) ≤
          countNewlines (stringifyFrom input e o kids) ∧
        crFree (stringifyFrom input e o kids) = true := by
  induction kids with
  | nil =>
    intro o e hchain _
    have hoe : o ≤ e := by simpa [spanChain] using hchain
    by_cases hlt : o < e
    · simp only [stringifyFrom, if_pos hlt]
      exact ⟨le_rfl, crFree_slice input o e hcr⟩
    · have : o = e := by omega
      subst this
      simp only [stringifyFrom, if_neg hlt]
      rw [slice_self]
      exact ⟨le_rfl, rfl⟩
  | cons k rest ih =>
    intro o e hchain hkids
    obtain ⟨cs, ce, t⟩ := k
    simp only [spanChain, Bool.and_eq_true, decide_eq_true_eq] at hchain
    obtain ⟨⟨hocs, hcse⟩, hrest⟩ := hchain
    have hce : ce ≤ e := spanChain_le ce rest e hrest
    obtain ⟨hthead, hcrt⟩ := hkids (cs, ce, t) (by simp)
    dsimp only at hthead hcrt
    have ihr := ih ce e hrest
      (fun x hx => hkids x (List.mem_cons_of_mem _ hx))
    obtain ⟨ihcount, ihcr⟩ := ihr
    simp only [stringifyFrom]
    have hprecr : crFree (if o < cs then slice input o cs else []) = true := by
      by_cases h : o < cs
      · rw [if_pos h]; exact crFree_slice input o cs hcr
      · rw [if_neg h]; rfl
    have hcrout : crFree ((if o < cs then slice input o cs else []) ++ t ++
        stringifyFrom input e ce rest) = true :=
      crFree_append _ _ (crFree_append _ _ hprecr hcrt) ihcr
    refine ⟨?_, hcrout⟩
    have hsplit1 : countNewlines (slice input o e) =
        (slice input o cs).count '\n' + (slice input cs ce).count '\n' +
          (slice input ce e).count '\n' := by
      have e1 : countNewlines (slice input o e) = (slice input o e).count '\n' :=
        countNewlines_eq_count _ (crFree_slice input o e hcr)
      have e2 := count_take_split input o e (by omega)
      have e3 := count_take_split input o cs (by omega)
      have e4 := count_take_split input cs ce (by omega)
      have e5 := count_take_split input ce e (by omega)
      have e6 := count_take_split input o ce (by omega)
      omega
    have happ : countNewlines ((if o < cs then slice input o cs else []) ++
        t ++ stringifyFrom input e ce rest) =
        countNewlines (if o < cs then slice input o cs else []) +
          countNewlines t + countNewlines (stringifyFrom input e ce rest) := by
      rw [countNewlines_append _ _
        (crFree_noTrailingCR _ (crFree_append _ _ hprecr hcrt)),
        countNewlines_append _ _ (crFree_noTrailingCR _ hprecr)]
    rw [happ]
    have hpre : countNewlines (if o < cs then slice input o cs else []) =
        (slice input o cs).count '\n' := by
      by_cases h : o < cs
      · rw [if_pos h]
        exact countNewlines_eq_count _ (crFree_slice input o cs hcr)
      · have : o = cs := by omega
        subst this
        rw [if_neg h, slice_self]
        simp [countNewlines_nil]
    have hthead2 : (slice input cs ce).count '\n' ≤ countNewlines t := by
      have := countNewlines_eq_count (slice input cs ce)
        (crFree_slice input cs ce hcr)
      omega
    have hrest2 : (slice input ce e).count '\n' ≤
        countNewlines (stringifyFrom input e ce rest) := by
      have := countNewlines_eq_count (slice input ce e)
        (crFree_slice input ce e hcr)
      omega
    omega

theorem wfList_mem (input : List Char) :
    ∀ (cs : PNodeList), wfList input cs = true →
      ∀ c ∈ cs.toList, wfB input c = true
  | .nil, _, c, hc => by simp [PNodeList.toList] at hc
  | .cons hd tl, h, c, hc => by
    have h12 : wfB input hd = true ∧ wfList input tl = true := by
      rw [wfList] at h
      simpa using h
    rcases List.mem_cons.mp hc with rfl | hc2
    · exact h12.1
    · exact wfList_mem input tl h12.2 c hc2

theorem visitKids_eq_map (input : List Char) (lines : List Int) :
    ∀ (cs : PNodeList),
      visitKids input lines cs =
        cs.toList.map (fun c => (c.start, c.stop, visit input lines c))
  | .nil => rfl
  | .cons hd tl => by
    simp [visitKids, PNodeList.toList, visitKids_eq_map input lines tl]

theorem visitKids_spanChain (input : List Char) (lines : List Int) :
    ∀ (cs : PNodeList) (o e : Nat),
      spanChain o (visitKids input lines cs) e = spanChainN o cs e
  | .nil, o, e => rfl
  | .cons hd tl, o, e => by
    simp only [visitKids, spanChain, spanChainN,
      visitKids_spanChain input lines tl]

theorem pnode_sizeOf_pos (t : PNode) : 1 ≤ sizeOf t := by
  cases t
  simp only [PNode.node.sizeOf_spec]
  omega

theorem pnode_sizeOf_mem (c : PNode) :
    ∀ (cs : PNodeList), c ∈ cs.toList → sizeOf c < sizeOf cs
  | .nil, h => by simp [PNodeList.toList] at h
  | .cons hd tl, h => by
    simp only [PNodeList.toList, List.mem_cons] at h
    simp only [PNodeList.cons.sizeOf_spec]
    rcases h with rfl | h2
    · omega
    · have := pnode_sizeOf_mem c tl h2
      omega

theorem slice_zero_length (input : List Char) :
    slice input 0 input.length = input := by
  simp [slice]

theorem visit_count (input : List Char) (hcr : crFree input = true)
    (hls : lsFree input = true) :
    ∀ (n : Nat) (t : PNode), sizeOf t ≤ n → wfB input t = true →
      countNewlines (slice input t.start t.stop) ≤
          countNewlines (visit input (idealLines input) t) ∧
        crFree (visit input (idealLines input) t) = true := by
  intro n
  induction n with
  | zero =>
    intro t hsz _
    have := pnode_sizeOf_pos t
    omega
  | succ n ih =>
    intro t hsz hwf
    cases t with
    | node s e repl cs =>
      rw [wfB.eq_def] at hwf
      dsimp only at hwf
      simp only [Bool.and_eq_true, decide_eq_true_eq] at hwf
      obtain ⟨⟨⟨⟨hse, helen⟩, hchain⟩, hrepl⟩, hwfl⟩ := hwf
      have hkid : ∀ x ∈ visitKids input (idealLines input) cs,
          countNewlines (slice input x.1 x.2.1) ≤ countNewlines x.2.2 ∧
            crFree x.2.2 = true := by
        intro x hx
        rw [visitKids_eq_map] at hx
        obtain ⟨c, hc, rfl⟩ := List.mem_map.mp hx
        have hszc : sizeOf c ≤ n := by
          have h1 := pnode_sizeOf_mem c cs hc
          have h2 : sizeOf cs < sizeOf (PNode.node s e repl cs) := by
            simp only [PNode.node.sizeOf_spec]
            omega
          omega
        exact ih c hszc (wfList_mem input cs hwfl c hc)
      rw [visit.eq_def]
      simp only [PNode.start, PNode.stop]
      cases repl with
      | none =>
        dsimp only
        have hmain := stringifyFrom_count input hcr
          (visitKids input (idealLines input) cs) s e
          (by rw [visitKids_spanChain]; exact hchain) hkid
        obtain ⟨hcount, hcrtext⟩ := hmain
        unfold syncNewlines
        constructor
        · have hge := preserveNewlines_ge
            (stringify input s e (visitKids input (idealLines input) cs))
            ((locationLine (idealLines input) ((e : Int) - 1) : Int) -
              (locationLine (idealLines input) (s : Int) : Int))
            (crFree_noTrailingCR _ hcrtext)
          unfold stringify at hge
          unfold stringify
          omega
        · unfold stringify
          exact crFree_preserveNewlines _ _ hcrtext
      | some t0 =>
        dsimp only
        simp only [Bool.and_eq_true, decide_eq_true_eq] at hrepl
        obtain ⟨⟨hcrt0, hslt⟩, hlast⟩ := hrepl
        unfold syncNewlines
        have hh := height_eq_slice input hcr hls s e hslt helen hlast
        constructor
        · have hcnt := countNewlines_preserveNewlines t0
            ((locationLine (idealLines input) ((e : Int) - 1) : Int) -
              (locationLine (idealLines input) (s : Int) : Int))
            (crFree_noTrailingCR _ hcrt0) (by rw [hh]; omega)
          have h2 : (countNewlines (slice input s e) : Int) ≤
              (countNewlines (preserveNewlines t0
                ((locationLine (idealLines input) ((e : Int) - 1) : Int) -
                  (locationLine (idealLines input) (s : Int) : Int))) :
                Int) := by
            rw [hcnt, hh]
            exact le_max_right _ _
          exact_mod_cast h2
        · exact crFree_preserveNewlines _ _ hcrt0

/-- Line preservation under the IDEALIZED line table: for an LF-convention
source text (free of `\r` and of U+2028/U+2029) and any node tree with the
span well-formedness the parser guarantees (ordered nested spans ending at
token ends, synthesized replacement texts free of carriage returns), the
replacer's traversal-with-`syncNewlines` would produce at least as many
newlines as the input, if the line table recorded every terminator of the
input.  This states the intent behind `preserveNewlines`/`syncNewlines`;
the scanner's actual table omits template-interior newlines, and the C1
theorem shows the property failing on the table the program really
builds. -/
theorem visit_preserves_lines_full_table (input : List Char) (t : PNode)
    (hcr : crFree input = true) (hls : lsFree input = true)
    (hwf : wfB input t = true)
    (hroot : t.start = 0 ∧ t.stop = input.length) :
    countNewlines input ≤
      countNewlines (visit input (idealLines input) t) := by
  have h := (visit_count input hcr hls (sizeOf t) t le_rfl hwf).1
  rw [hroot.1, hroot.2, slice_zero_length] at h
  exact h

/-- Concrete instance of the idealized-table preservation at `"a\nb"` with
a child `[0, 1)` rewritten to `x`. -/
theorem visit_preserves_lines_full_table_example :
    countNewlines ['a', '\n', 'b'] ≤
      countNewlines (visit ['a', '\n', 'b'] (idealLines ['a', '\n', 'b'])
        (.node 0 3 none (.cons (.node 0 1 (some ['x']) .nil) .nil))) :=
  visit_preserves_lines_full_table ['a', '\n', 'b']
    (.node 0 3 none (.cons (.node 0 1 (some ['x']) .nil) .nil))
    (by decide) (by decide) (by decide) (by decide)

/-- C1 (code bug): line preservation fails on the line table the program
actually builds.  For the input `x =>` newline, then a backquoted template
`a` newline `b` — an arrow function whose body is a multi-line template
literal — the embedded scanner (`Scanner.next` over `Start` and the token
scanners of `src/build/es6now.js`) finishes with `lines = [-1, 4]`: the
newline token at offset 4 is recorded, but `Scanner.Template` consumes the
raw newline at offset 7 without an `addLineBreak` call, although the
template span `[5, 10)` contains one newline.  Consequently the replacer's
traversal (the `visit`/`syncNewlines` pass, with
`Replacer.TemplateExpression` and `Replacer.ArrowFunction` supplying the
rewritten texts) computes the arrow's height as 1 rather than 2 and pads
nothing, and the output carries 1 newline against the input's 2 — refuting
`countNewlines(translate(x, opts)) ≥ countNewlines(x)`.  The final
conjuncts show the same traversal preserving the count under the idealized
full table, locating the defect in the missing `addLineBreak`. -/
theorem C1_template_newlines_lost :
    (scanAll (fun _ => false) (fun _ => false) (fun _ => false) "" 6
        ⟨c1input, 0, false, [], 0, [-1], none⟩).lines = c1lines ∧
    (scanTemplate ⟨c1input, 5, false, [], 0, c1lines, none⟩).2.1 =
      "TEMPLATE" ∧
    (scanTemplate ⟨c1input, 5, false, [], 0, c1lines, none⟩).1.lines =
      c1lines ∧
    (scanTemplate ⟨c1input, 5, false, [], 0, c1lines, none⟩).1.offset =
      10 ∧
    countNewlines (slice c1input 5 10) = 1 ∧
    visit c1input c1lines c1tree = c1output ∧
    countNewlines c1output = 1 ∧
    countNewlines c1input = 2 ∧
    visit c1input (idealLines c1input) c1templateNode =
      visit c1input c1lines c1templateNode ∧
    countNewlines (visit c1input (idealLines c1input) c1tree) = 2 := by
  decide

end Esdown
